import Mathlib

/-!
Verification of the DAISY 2.02 extraction core (extract.py / readaisy.py).

Texts coming from the documents (attribute values, titles, file names) are
modelled as `List Char`; exact decimal time values (Python `Decimal`) are
modelled as `Rat`; code that can raise a Python exception is modelled in
`Except Err`.  Functions keep the names of the Python functions they embed;
functions that are byte-for-byte identical in `extract.py` and `readaisy.py`
(`get_start_time`, `get_smils`, `make_safe_filename`) are defined once.
-/

/-- Python `str.split(sep)` for a one-character separator: always returns a
nonempty list, empty fields included (`"".split(":") == [""]`). -/
def splitOnChar (sep : Char) : List Char → List (List Char)
  | [] => [[]]
  | c :: rest =>
    match splitOnChar sep rest with
    | [] => [[]]
    | h :: t => if c = sep then [] :: h :: t else (c :: h) :: t

/-- Python `str.strip()` (no argument): removes leading and trailing ASCII
whitespace.  Used on heading link texts. -/
def pyStrip (l : List Char) : List Char :=
  let ws : Char → Bool := fun c =>
    c = ' ' || c = '\t' || c = '\n' || c = '\r' || c = '\x0b' || c = '\x0c'
  ((l.dropWhile ws).reverse.dropWhile ws).reverse

/-- Numeric value of a list of decimal digit characters, most significant
first. -/
def digitsToNat (l : List Char) : Nat :=
  l.foldl (fun a c => 10 * a + (c.toNat - 48)) 0

/-- Ten to an integer power, as a rational. -/
def tenPow : Int → Rat
  | Int.ofNat n => (10 : Rat) ^ n
  | Int.negSucc n => 1 / (10 : Rat) ^ (n + 1)

/-- Exponent suffix of a Python decimal numeral: either the empty string
(exponent 0) or `e`/`E`, an optional sign and a nonempty digit string that
consumes the whole remainder. -/
def parseExp : List Char → Option Int
  | [] => some 0
  | c :: r =>
    if c = 'e' ∨ c = 'E' then
      match r with
      | '+' :: ds => if ds ≠ [] ∧ ds.all Char.isDigit then some (digitsToNat ds) else none
      | '-' :: ds => if ds ≠ [] ∧ ds.all Char.isDigit then some (-(digitsToNat ds : Int)) else none
      | ds => if ds ≠ [] ∧ ds.all Char.isDigit then some (digitsToNat ds) else none
    else none

/-- Unsigned part of a Python decimal numeral: `digits [. digits] [exp]` or
`. digits [exp]`, with at least one digit in the coefficient. -/
def pyDecimalCore (l : List Char) : Option Rat :=
  let ip := l.takeWhile Char.isDigit
  match l.dropWhile Char.isDigit with
  | '.' :: r2 =>
    let fp := r2.takeWhile Char.isDigit
    if ip = [] ∧ fp = [] then none
    else
      match parseExp (r2.dropWhile Char.isDigit) with
      | some e => some (((digitsToNat ip : Rat) + (digitsToNat fp : Rat) / (10 : Rat) ^ fp.length) * tenPow e)
      | none => none
  | r1 =>
    if ip = [] then none
    else
      match parseExp r1 with
      | some e => some ((digitsToNat ip : Rat) * tenPow e)
      | none => none

/-- ASCII whitespace in the sense of Python string stripping: code points
0x09–0x0D, 0x1C–0x1F and the space.  (`str.strip()` also removes non-ASCII
Unicode whitespace, which lies outside the ASCII-restricted model.) -/
def isPySpace (c : Char) : Bool :=
  (9 ≤ c.toNat && c.toNat ≤ 13) || (28 ≤ c.toNat && c.toNat ≤ 32)

/-- Preprocessing Python's `decimal.Decimal` constructor applies to its
string argument before matching it against the numeric grammar:
`value.strip().replace("_", "")` — strip surrounding whitespace, then delete
every grouping underscore (anywhere in the string). -/
def pyDecPrep (l : List Char) : List Char :=
  (((l.dropWhile isPySpace).reverse.dropWhile isPySpace).reverse).filter fun c => c ≠ '_'

/-- Signed finite numeral of the `Decimal` grammar: an optional sign followed
by digits with optional fractional part and exponent. -/
def pyDecimalNumeral : List Char → Option Rat
  | '+' :: r => pyDecimalCore r
  | '-' :: r => (pyDecimalCore r).map Neg.neg
  | r => pyDecimalCore r

/-- Models the string form of Python's `decimal.Decimal` constructor on ASCII
input, as the code applies it to time fields and clip timestamps: after the
`strip`/underscore-deletion preprocessing, an optional sign and a finite
decimal numeral with optional fractional part and exponent are read, and the
finite rational value is returned.  `none` covers both the inputs on which
the constructor raises `decimal.InvalidOperation` and the non-finite
spellings (quiet `NaN` with optional digit payload, `Inf`/`Infinity`) that
the constructor accepts but that denote no rational; `pyDecSpecial` below
recognizes exactly the latter, so on ASCII input the constructor yields a
finite value iff `pyDecimal` is `some`, and raises iff `pyDecimal` is `none`
and `pyDecSpecial` is `false`.  (A signaling `sNaN` constructs but raises
`InvalidOperation` at its first arithmetic use — in this program the
multiplication by `60**i` — so it counts as a failing input here; non-ASCII
input, i.e. Unicode whitespace and Unicode digits the constructor also
accepts, is outside the model.) -/
def pyDecimal (l : List Char) : Option Rat :=
  pyDecimalNumeral (pyDecPrep l)

/-- ASCII lower-casing, for the case-insensitive `NaN`/`Infinity` match. -/
def asciiLower (c : Char) : Char :=
  if 'A' ≤ c && c ≤ 'Z' then Char.ofNat (c.toNat + 32) else c

/-- The non-finite spellings Python's `decimal.Decimal` constructor accepts
without raising, after the same preprocessing as `pyDecimal` and an optional
sign: `Inf`, `Infinity`, or a quiet `NaN` with an optional digit payload,
case-insensitively.  (`sNaN` is excluded on purpose: it raises at the first
arithmetic use and thus behaves as a failing input in this program.) -/
def pyDecSpecial (l : List Char) : Bool :=
  let m := (pyDecPrep l).map asciiLower
  let core := match m with
    | '+' :: r => r
    | '-' :: r => r
    | r => r
  core == "inf".data || core == "infinity".data ||
    match core with
    | 'n' :: 'a' :: 'n' :: ds => ds.all Char.isDigit
    | _ => false

/-- Value of one hexadecimal digit character, if it is one. -/
def hexVal (c : Char) : Option Nat :=
  if c.isDigit then some (c.toNat - 48)
  else if 'a' ≤ c ∧ c ≤ 'f' then some (c.toNat - 97 + 10)
  else if 'A' ≤ c ∧ c ≤ 'F' then some (c.toNat - 65 + 10)
  else none

/-- Nonempty string of hexadecimal digits, most significant first. -/
def hexDigits : List Char → Option Nat
  | [] => none
  | [c] => hexVal c
  | c :: rest => do
    let h ← hexVal c
    let r ← hexDigits rest
    let w := rest.length
    pure (h * 16 ^ w + r)

/-- Unsigned part of a Python base-16 `int` literal: optional `0x`/`0X`
prefix, then hex digits. -/
def pyInt16Core : List Char → Option Nat
  | '0' :: 'x' :: r => hexDigits r
  | '0' :: 'X' :: r => hexDigits r
  | r => hexDigits r

/-- Models Python `int(s, base=16)` as the code uses it on id-attribute
suffixes: optional sign, optional `0x` marker, hexadecimal digits.  The
surrounding whitespace and grouping underscores `int` also tolerates are
outside the modelled grammar (`none` here, accepted there); this only
narrows the domain of the theorems below, which are all conditioned on a
successful parse, so nothing is asserted about those inputs. -/
def pyIntBase16 : List Char → Option Int
  | '+' :: r => (pyInt16Core r).map Int.ofNat
  | '-' :: r => (pyInt16Core r).map fun n => -(n : Int)
  | r => (pyInt16Core r).map Int.ofNat

/-- Failure modes of the embedded code, named after the Python exceptions the
source raises at the corresponding program points.  The spec's abstract error
taxonomy maps onto them as follows: `FormatError` covers `invalidOperation`
(from `Decimal`), `valueError` (from `int(…, 16)`) and `indexError` raised
while slicing a malformed clip attribute; `InconsistentSourceError` is
`inconsistentSource` (a `ValueError` in `get_audio_files`);
`MissingMetadataError` covers `noMetaTag` (the `RuntimeError` in
`get_start_time`) and the `indexError`/`typeError` raised when a section has
no audio segment. -/
inductive Err where
  | noMetaTag
  | invalidOperation
  | inconsistentSource (name : List Char)
  | indexError
  | valueError
  | typeError
  deriving DecidableEq

/-- Audio-reference element of a synchronization document, with the four
attributes the code reads.  Raw attribute texts are kept unparsed. -/
structure AudioTag where
  src : List Char
  clipBegin : List Char
  clipEnd : List Char
  id : List Char
  deriving DecidableEq

/-- Sequencing element carrying a `dur` attribute, as queried by
`readaisy.get_audio` via `find("seq", dur=True)`. -/
structure SeqTag where
  dur : List Char
  audio : List AudioTag
  deriving DecidableEq

/-- Parsed synchronization document, restricted to the queries the code
performs: the `content` attribute of the `ncc:totalElapsedTime` meta element
(when that element exists), the first `seq` element carrying a `dur`
attribute, and the document-order list of all `audio` elements
(`find_all("audio")`). -/
structure SmilDoc where
  totalElapsedTime : Option (List Char)
  seq : Option SeqTag
  audioTags : List AudioTag
  deriving DecidableEq

/-- Summation loop of `get_start_time`: fields already reversed (least
significant first), `i` the weight index; the first unparsable field raises
`decimal.InvalidOperation`. -/
def parseElapsedFields : List (List Char) → Nat → Except Err Rat
  | [], _ => .ok 0
  | p :: rest, i =>
    match pyDecimal p with
    | none => .error .invalidOperation
    | some d => do
      let s ← parseElapsedFields rest (i + 1)
      .ok (d * (60 : Rat) ^ i + s)

/-- Embeds `get_start_time` (identical in both files): look up the
`ncc:totalElapsedTime` meta element, split its `content` on `:` and sum
`Decimal(part) * 60**i` over the reversed field list. -/
def get_start_time (doc : SmilDoc) : Except Err Rat :=
  match doc.totalElapsedTime with
  | none => .error .noMetaTag
  | some ts => parseElapsedFields ((splitOnChar ':' ts).reverse) 0

/-- Characters the sanitizer replaces: in the source,
`'<>:"/\\|?*^{}'.format("".join(disallowed_ascii))` substitutes the 32 ASCII
control characters for the `{}` placeholder, so the braces themselves are
consumed by `str.format` and are not part of the set. -/
def disallowed_chars : List Char :=
  ['<', '>', ':', '"', '/', '\\', '|', '?', '*', '^'] ++
    (List.range 32).map Char.ofNat

/-- Python `str.replace(": ", " - ")`: leftmost, non-overlapping. -/
def replaceColonSpace : List Char → List Char
  | [] => []
  | [c] => [c]
  | c :: d :: rest =>
    if c = ':' ∧ d = ' ' then ' ' :: '-' :: ' ' :: replaceColonSpace rest
    else c :: replaceColonSpace (d :: rest)

/-- Python `str.translate(translator)` for the sanitizer's table: every
disallowed character becomes an underscore. -/
def pyTranslate (l : List Char) : List Char :=
  l.map fun c => if c ∈ disallowed_chars then '_' else c

/-- Python `str.rstrip(". ")`: remove trailing periods and spaces. -/
def rstripDotSpace (l : List Char) : List Char :=
  (l.reverse.dropWhile fun c => c = '.' || c = ' ').reverse

/-- Embeds `make_safe_filename` (identical in both files):
`filename.replace(": ", " - ").translate(translator).rstrip(". ")`. -/
def make_safe_filename (filename : List Char) : List Char :=
  rstripDotSpace (pyTranslate (replaceColonSpace filename))

/-- Heading tag names the NCC scan selects (`find_all(["h1", "h2", "h3"])`). -/
inductive HTag where
  | h1
  | h2
  | h3
  deriving DecidableEq

/-- Numeric level of a heading tag (`int(heading.name[1])`). -/
def HTag.level : HTag → Nat
  | .h1 => 1
  | .h2 => 2
  | .h3 => 3

/-- Heading element as consumed by `get_smils`: its tag, the text and `href`
of its anchor child, and the tag of `find_next_sibling(["h1", "h2", "h3"])`
(`none` when there is no such sibling).  The sibling tag is carried as an
input field because the lookahead is a query on the document tree; for a flat
document it is the tag of the next heading in the list (`sibsCoherent`). -/
structure Heading where
  tag : HTag
  text : List Char
  href : List Char
  sib : Option HTag
  deriving DecidableEq

/-- Title of a heading: `heading.a.text.strip()`. -/
def Heading.title (h : Heading) : List Char := pyStrip h.text

/-- Synchronization-document path of a heading:
`heading.a["href"].split("#")[0]`. -/
def Heading.path (h : Heading) : List Char := (splitOnChar '#' h.href).headD []

/-- Lookahead filter for level-1 headings:
`(sib := heading.find_next_sibling(["h1", "h2", "h3"])) and sib.name != "h1"`. -/
def kept (h : Heading) : Bool := h.sib.isSome && h.sib ≠ some HTag.h1

/-- SMIL tree node (the `Smil` dataclass): level, title, file name and
ordered children. -/
inductive Smil where
  | mk (level : Nat) (title : List Char) (file_name : List Char) (children : List Smil)

def Smil.level : Smil → Nat
  | .mk l _ _ _ => l

def Smil.title : Smil → List Char
  | .mk _ t _ _ => t

def Smil.file_name : Smil → List Char
  | .mk _ _ f _ => f

def Smil.children : Smil → List Smil
  | .mk _ _ _ c => c

/-- Book currently open in the `get_smils` scan.  In the source the open book
is the `Smil` object most recently appended to `smil_list`, mutated in place;
here it is held apart and flushed to the end of the list when closed. -/
structure OpenBook where
  title : List Char
  path : List Char
  chapters : List Smil

/-- Chapter currently open in the `get_smils` scan (`current_h2`).
`attached` records whether it was appended into an open book at creation
(`current_h1` was set); an unattached chapter and its subheadings are
dropped. -/
structure OpenChap where
  title : List Char
  path : List Char
  subs : List Smil
  attached : Bool

/-- State of the `get_smils` scan: closed books in order, the open book
(`current_h1`) and the open chapter (`current_h2`). -/
structure BuildState where
  books : List Smil
  cur1 : Option OpenBook
  cur2 : Option OpenChap

/-- Close the open chapter: an attached chapter becomes the next child of the
open book (in the source it is already aliased there); an unattached one is
dropped. -/
def closeCur2 (s : BuildState) : BuildState :=
  match s.cur2 with
  | none => s
  | some c =>
    if c.attached then
      match s.cur1 with
      | some b =>
        { books := s.books,
          cur1 := some { b with chapters := b.chapters ++ [Smil.mk 2 c.title c.path c.subs] },
          cur2 := none }
      | none => { s with cur2 := none }
    else { s with cur2 := none }

/-- Closed books followed by the open book, i.e. the contents of `smil_list`
(the open book is always its last element in the source). -/
def flushCur1 (s : BuildState) : List Smil :=
  s.books ++
    match s.cur1 with
    | some b => [Smil.mk 1 b.title b.path b.chapters]
    | none => []

/-- One iteration of the `get_smils` heading loop.  A kept level-1 heading
opens a new book; a discarded one leaves `current_h1` untouched; either way
`current_h2` is reset.  A level-2 heading opens a chapter, attached exactly
when a book is open.  A level-3 heading is appended to the open chapter and
dropped when none is open. -/
def step (s : BuildState) (h : Heading) : BuildState :=
  match h.tag with
  | .h1 =>
    let s1 := closeCur2 s
    if kept h then
      { books := flushCur1 s1, cur1 := some ⟨h.title, h.path, []⟩, cur2 := none }
    else
      { s1 with cur2 := none }
  | .h2 =>
    let s1 := closeCur2 s
    { s1 with cur2 := some ⟨h.title, h.path, [], s1.cur1.isSome⟩ }
  | .h3 =>
    match s.cur2 with
    | some c => { s with cur2 := some { c with subs := c.subs ++ [Smil.mk 3 h.title h.path []] } }
    | none => s

/-- Run the heading loop from a given state. -/
def runFrom (s : BuildState) (hs : List Heading) : BuildState :=
  hs.foldl step s

/-- Final value of `smil_list` for a given scan state. -/
def finalize (s : BuildState) : List Smil :=
  flushCur1 (closeCur2 s)

/-- Embeds `get_smils` (identical in both files): fold the heading loop over
the document-order heading list and read off `smil_list`. -/
def get_smils (hs : List Heading) : List Smil :=
  finalize (runFrom ⟨[], none, none⟩ hs)

/-- Flat-document hypothesis: each heading's recorded next-sibling tag is the
tag of the next heading in the list (and the last heading has none), which is
how `find_next_sibling` behaves when all headings are siblings. -/
def sibsCoherent : List Heading → Prop
  | [] => True
  | [h] => h.sib = none
  | h :: h2 :: t => h.sib = some h2.tag ∧ sibsCoherent (h2 :: t)

/-- Pair every list element with its successor, `none` for the last. -/
def withNext : List Heading → List (Heading × Option Heading)
  | [] => []
  | [h] => [(h, none)]
  | h :: h2 :: t => (h, some h2) :: withNext (h2 :: t)

/-- Clip attribute parsing as inlined in both files:
`Decimal(attr.split("=")[1][:-1])`.  A missing `=` makes the `[1]` index
raise; an unparsable remainder raises in `Decimal`. -/
def parseClipAttr (raw : List Char) : Except Err Rat :=
  match (splitOnChar '=' raw).get? 1 with
  | none => .error .indexError
  | some p =>
    match pyDecimal p.dropLast with
    | some v => .ok v
    | none => .error .invalidOperation

/-- Trailing id-attribute component: `tag["id"].split("_")[-1]`. -/
def idSuffix (idAttr : List Char) : List Char :=
  (splitOnChar '_' idAttr).getLastD []

namespace Extract

/-- The `Audio` dataclass of extract.py (field `end` renamed `stop`, `end`
being reserved in Lean). -/
structure Audio where
  identifier : List Char
  file_name : List Char
  start : Rat
  stop : Rat
  deriving DecidableEq

/-- Body of one `get_audio_files` loop iteration: read `src`, parse
`clip-begin` and `clip-end` shifted by `start_time`, and build the identifier
`f"{id_prefix}{int(tag['id'].split('_')[-1], base=16)}"`. -/
def mkAudio (t : AudioTag) (start_time : Rat) (idp : List Char) : Except Err Audio := do
  let b ← parseClipAttr t.clipBegin
  let e ← parseClipAttr t.clipEnd
  match pyIntBase16 (idSuffix t.id) with
  | none => .error .valueError
  | some n => .ok ⟨idp ++ (toString n).data, t.src, b + start_time, e + start_time⟩

/-- The `get_audio_files` collection loop over the document-order audio
tags. -/
def mapAudio (ts : List AudioTag) (start_time : Rat) (idp : List Char) :
    Except Err (List Audio) :=
  match ts with
  | [] => .ok []
  | t :: rest => do
    let a ← mkAudio t start_time idp
    let as ← mapAudio rest start_time idp
    .ok (a :: as)

/-- Embeds `extract.get_audio_files`: collect all audio elements, then check
`all(audio.file_name == file_name for audio in audio_files)` where
`file_name` holds the last element's `src` after the loop (the check passes
vacuously on an empty document), raising
`ValueError(f"Not all audio files have the same filename: {file_name}")`
otherwise. -/
def get_audio_files (doc : SmilDoc) (start_time : Rat := 0) (idp : List Char := []) :
    Except Err (List Audio) := do
  let files ← mapAudio doc.audioTags start_time idp
  match doc.audioTags.getLast? with
  | none => .ok files
  | some lt =>
    if files.all fun a => a.file_name == lt.src then .ok files
    else .error (.inconsistentSource lt.src)

/-- Python `xs[0]`: first element or `IndexError`. -/
def idx0 {α : Type} (l : List α) : Except Err α :=
  match l.head? with
  | some a => .ok a
  | none => .error .indexError

/-- Subheading loop of `process_books` (per-book segment gathering only: the
file copies and name formatting are filesystem I/O and do not touch the
segment list).  `env` maps a file name to its parsed document; `sp i` is the
id prefix used for subheading number `i` (in the source the f-string
`f"{chapter}_{subheading_index}"`, whose exact text — the dataclass repr —
no claim depends on); `i` starts at 1 (`enumerate(..., start=1)`).  The
`idx0` call models `subheading_audio_files[0]`, evaluated for the copy. -/
def collect_subs (env : List Char → SmilDoc) (sp : Nat → List Char) (book_start : Rat) :
    Nat → List Smil → Except Err (List Audio)
  | _, [] => .ok []
  | i, sub :: rest => do
    let sdoc := env sub.file_name
    let sstart ← get_start_time sdoc
    let sfiles ← get_audio_files sdoc (sstart - book_start) (sp i)
    let _ ← idx0 sfiles
    let more ← collect_subs env sp book_start (i + 1) rest
    .ok (sfiles ++ more)

/-- Chapter loop of `process_books`: per chapter, parse its document, compute
`rel_start = get_start_time(...) - book_start`, extract its segments with
that offset, take `chapter_audio_files[0]` for the copy, then the chapter's
subheadings; segments accumulate in traversal order
(`audio_files += chapter_audio_files` precedes the subheading loop).
`cp c` is the chapter id prefix (`f"{chapter}_"` in the source). -/
def collect_chapters (env : List Char → SmilDoc) (cp : Smil → List Char)
    (sp : Smil → Nat → List Char) (book_start : Rat) :
    List Smil → Except Err (List Audio)
  | [] => .ok []
  | c :: rest => do
    let cdoc := env c.file_name
    let cstart ← get_start_time cdoc
    let cfiles ← get_audio_files cdoc (cstart - book_start) (cp c)
    let _ ← idx0 cfiles
    let subs ← collect_subs env (sp c) book_start 1 c.children
    let more ← collect_chapters env cp sp book_start rest
    .ok (cfiles ++ subs ++ more)

/-- Per-book segment gathering of `process_books`, in source order: the
book's own document is extracted at offset 0 with an empty id prefix, then
`book_start` is read, then `audio_files[0]` is taken for the copy, then the
chapters are processed. -/
def collect_book (env : List Char → SmilDoc) (cp : Smil → List Char)
    (sp : Smil → Nat → List Char) (book : Smil) : Except Err (List Audio) := do
  let doc := env book.file_name
  let audio_files ← get_audio_files doc 0 []
  let book_start ← get_start_time doc
  let _ ← idx0 audio_files
  let rest ← collect_chapters env cp sp book_start book.children
  .ok (audio_files ++ rest)

end Extract

namespace Readaisy

/-- The `Segment` dataclass of readaisy.py (field `end` renamed `stop`). -/
structure Segment where
  identifier : List Char
  start : Rat
  stop : Rat
  deriving DecidableEq

/-- The `Audio` dataclass of readaisy.py: one section's source file with its
start, `seq` duration and segment list. -/
structure Audio where
  file_name : List Char
  start : Rat
  length : Rat
  segments : List Segment
  deriving DecidableEq

/-- Segment loop of `readaisy.get_audio`: identifier
`f"{id_prefix} - {int(tag['id'].split('_')[-1], base=16)}"` (note the
`" - "` joiner), clip times shifted by `start_time`. -/
def mkSegment (t : AudioTag) (start_time : Rat) (idp : List Char) : Except Err Segment := do
  match pyIntBase16 (idSuffix t.id) with
  | none => .error .valueError
  | some n => do
    let b ← parseClipAttr t.clipBegin
    let e ← parseClipAttr t.clipEnd
    .ok ⟨idp ++ " - ".data ++ (toString n).data, b + start_time, e + start_time⟩

/-- Collection loop over the seq's audio tags. -/
def mapSegments (ts : List AudioTag) (start_time : Rat) (idp : List Char) :
    Except Err (List Segment) :=
  match ts with
  | [] => .ok []
  | t :: rest => do
    let s ← mkSegment t start_time idp
    let ss ← mapSegments rest start_time idp
    .ok (s :: ss)

/-- Embeds `readaisy.get_audio`: find the `seq` with a `dur` attribute
(subscripting `None` raises `TypeError` when absent), parse
`Decimal(seq_tag["dur"][:-1])`, take `audio_tags[0]["src"]` as the file name
(`IndexError` on an empty section) and build every segment.  No source-file
consistency check is performed. -/
def get_audio (doc : SmilDoc) (start_time : Rat := 0) (idp : List Char := []) :
    Except Err Audio := do
  match doc.seq with
  | none => .error .typeError
  | some sq =>
    match pyDecimal sq.dur.dropLast with
    | none => .error .invalidOperation
    | some duration =>
      match sq.audio.head? with
      | none => .error .indexError
      | some t0 => do
        let segs ← mapSegments sq.audio start_time idp
        .ok ⟨t0.src, start_time, duration, segs⟩

end Readaisy

/-- Spec-side reading of the elapsed-time formula: fields most significant
first, summed as `field * 60 ^ (position from the right)`. -/
def specElapsedSum : List Rat → Rat
  | [] => 0
  | d :: rest => d * (60 : Rat) ^ rest.length + specElapsedSum rest

/-- Weighted sum over least-significant-first fields starting at weight
`60 ^ i`. -/
def weightedSum : List Rat → Nat → Rat
  | [], _ => 0
  | d :: rest, i => d * (60 : Rat) ^ i + weightedSum rest (i + 1)

/-- Parse every field of a colon-split elapsed time, spec-side. -/
def parseFields : List (List Char) → Option (List Rat)
  | [] => some []
  | p :: rest => do
    let d ← pyDecimal p
    let ds ← parseFields rest
    some (d :: ds)

/-- Spec-side local clip-begin values of a document, in document order. -/
def clipBegins : List AudioTag → Except Err (List Rat)
  | [] => .ok []
  | t :: rest => do
    let b ← parseClipAttr t.clipBegin
    let bs ← clipBegins rest
    .ok (b :: bs)

/-- Tree-traversal order of a book's sections: the book itself, then each
chapter followed by its subheadings, in document order. -/
def allSections (book : Smil) : List Smil :=
  book :: book.children.flatMap fun c => c :: c.children

/-- Spec-side assembly: for each section, its local clip-begin values shifted
by `(section anchor) − (book anchor)`, concatenated in traversal order. -/
def specRest (env : List Char → SmilDoc) (ab : Rat) : List Smil → Except Err (List Rat)
  | [] => .ok []
  | sec :: rest => do
    let a ← get_start_time (env sec.file_name)
    let ls ← clipBegins (env sec.file_name).audioTags
    let more ← specRest env ab rest
    .ok (ls.map (fun x => x + (a - ab)) ++ more)

/-- Spec-side book-global start values of a whole book (the book section's
own shift is `bookAnchor − bookAnchor = 0`). -/
def specStarts (env : List Char → SmilDoc) (book : Smil) : Except Err (List Rat) := do
  let ab ← get_start_time (env book.file_name)
  specRest env ab (allSections book)

/-- Spec-side boundary condition between consecutive sections of a book:
the last book-global start of the first section is at most the first
book-global start of the second (the common `− bookAnchor` shift cancels). -/
def secBoundary (env : List Char → SmilDoc) (s1 s2 : Smil) : Prop :=
  ∀ a1 a2 l1 l2, get_start_time (env s1.file_name) = .ok a1 →
    get_start_time (env s2.file_name) = .ok a2 →
    clipBegins (env s1.file_name).audioTags = .ok l1 →
    clipBegins (env s2.file_name).audioTags = .ok l2 →
    ∀ x ∈ l1.getLast?, ∀ y ∈ l2.head?, x + a1 ≤ y + a2

/-- Identifying key of a produced book: its title and smil path. -/
def bookKey (b : Smil) : List Char × List Char :=
  (b.title, b.file_name)

/-- Key of a level-1 heading the scan keeps (lookahead via the recorded
sibling tag). -/
def keptKey (h : Heading) : Option (List Char × List Char) :=
  if h.tag = HTag.h1 ∧ kept h then some (h.title, h.path) else none

/-- Key of a level-1 heading kept according to the claim's list-lookahead
reading: a next heading exists in the list and its level is not 1. -/
def keptNextKey : Heading × Option Heading → Option (List Char × List Char)
  | (h, some nx) =>
    if h.tag = HTag.h1 ∧ nx.tag ≠ HTag.h1 then some (h.title, h.path) else none
  | (_, none) => none

/-- Level invariant, leaf level: a subheading node is level 3 and childless. -/
def wf3 (s : Smil) : Prop :=
  s.level = 3 ∧ s.children = []

/-- Level invariant, chapter level: level 2 with only level-3 children. -/
def wf2 (s : Smil) : Prop :=
  s.level = 2 ∧ ∀ c ∈ s.children, wf3 c

/-- Level invariant, book level: level 1 with only level-2 children. -/
def wf1 (s : Smil) : Prop :=
  s.level = 1 ∧ ∀ c ∈ s.children, wf2 c

/-- Level invariant of a scan state: closed books are well-formed, the open
book holds only well-formed chapters, the open chapter only well-formed
subheadings. -/
def wfState (s : BuildState) : Prop :=
  (∀ b ∈ s.books, wf1 b) ∧
    (∀ b, s.cur1 = some b → ∀ c ∈ b.chapters, wf2 c) ∧
    ∀ c, s.cur2 = some c → ∀ x ∈ c.subs, wf3 x

/-! Concrete documents and headings used by witnesses and counterexamples. -/

/-- Heading list of the spec's tree-building example: `h1 "A"`. -/
def hA : Heading := ⟨.h1, "A".data, "a.smil".data, some .h2⟩

/-- Heading list of the spec's tree-building example: `h2 "A.1"`. -/
def hA1 : Heading := ⟨.h2, "A.1".data, "a1.smil".data, some .h1⟩

/-- Heading list of the spec's tree-building example: trailing bare `h1 "B"`. -/
def hB : Heading := ⟨.h1, "B".data, "b.smil".data, none⟩

/-- Level-3 heading with no preceding level-2 heading. -/
def hOrphan : Heading := ⟨.h3, "z".data, "z.smil".data, some .h1⟩

/-- Discarded level-1 heading (no following sibling among h1–h3). -/
def hD : Heading := ⟨.h1, "D".data, "d.smil".data, none⟩

/-- Level-2 heading arriving after the discarded `hD`. -/
def hX : Heading := ⟨.h2, "X".data, "x.smil".data, none⟩

/-- Level-3 heading under `hX`. -/
def hY : Heading := ⟨.h3, "y".data, "y.smil".data, none⟩

/-- Audio tag: clip 0s–2s of `w.mp3`, id suffix hex 1. -/
def tagW1 : AudioTag := ⟨"w.mp3".data, "npt=0s".data, "npt=2s".data, "x_1".data⟩

/-- Audio tag: clip 5s–7s of `w.mp3`, id suffix hex 2. -/
def tagW2 : AudioTag := ⟨"w.mp3".data, "npt=5s".data, "npt=7s".data, "x_2".data⟩

/-- Audio tag: clip 0s–3s of `w2.mp3`, id suffix hex 3. -/
def tagW3 : AudioTag := ⟨"w2.mp3".data, "npt=0s".data, "npt=3s".data, "x_3".data⟩

/-- Well-formed book document: anchor 0, two ordered segments. -/
def docW : SmilDoc := ⟨some "00:00:00".data, none, [tagW1, tagW2]⟩

/-- Well-formed chapter document: anchor 10 s, one segment. -/
def docW2 : SmilDoc := ⟨some "00:00:10".data, none, [tagW3]⟩

/-- Fileset serving `docW` for the book path and `docW2` elsewhere. -/
def envW : List Char → SmilDoc :=
  fun n => if n = "bw.smil".data then docW else docW2

/-- Book whose chapter anchors are coherent with its own. -/
def bookW : Smil := .mk 1 "W".data "bw.smil".data [.mk 2 "W1".data "cw.smil".data []]

/-- Audio tag starting at 10 s (book document of the non-monotone fileset). -/
def tagN1 : AudioTag := ⟨"a.mp3".data, "npt=10s".data, "npt=11s".data, "x_1".data⟩

/-- Audio tag starting at 0 s (chapter document of the non-monotone fileset). -/
def tagN2 : AudioTag := ⟨"c.mp3".data, "npt=0s".data, "npt=1s".data, "x_2".data⟩

/-- Book document whose only segment starts at 10 s, anchor 0. -/
def docN1 : SmilDoc := ⟨some "00:00:00".data, none, [tagN1]⟩

/-- Chapter document with the same anchor 0 but a segment starting at 0 s. -/
def docN2 : SmilDoc := ⟨some "00:00:00".data, none, [tagN2]⟩

/-- Fileset on which the assembled start sequence decreases. -/
def envN : List Char → SmilDoc :=
  fun n => if n = "bn.smil".data then docN1 else docN2

/-- Book over the non-monotone fileset. -/
def bookN : Smil := .mk 1 "N".data "bn.smil".data [.mk 2 "C".data "cn.smil".data []]

/-- Audio tag referencing `a.mp3`. -/
def mixTag1 : AudioTag := ⟨"a.mp3".data, "npt=0s".data, "npt=1s".data, "x_1".data⟩

/-- Audio tag referencing `b.mp3`, a different source file. -/
def mixTag2 : AudioTag := ⟨"b.mp3".data, "npt=1s".data, "npt=2s".data, "x_2".data⟩

/-- Synchronization document whose audio elements reference two distinct
source files. -/
def mixDoc : SmilDoc :=
  ⟨none, some ⟨"3s".data, [mixTag1, mixTag2]⟩, [mixTag1, mixTag2]⟩

/-- Document with no `ncc:totalElapsedTime` meta element. -/
def noMetaDoc : SmilDoc := ⟨none, none, [tagW1]⟩

/-- Document with metadata but zero audio elements. -/
def emptyDoc : SmilDoc := ⟨some "00:00:00".data, none, []⟩

/-- Document whose `seq` carries a `dur` but contains no audio element. -/
def emptySeqDoc : SmilDoc := ⟨some "0:00".data, some ⟨"3s".data, []⟩, []⟩

/-- Fileset whose chapter document lacks the elapsed-time metadata. -/
def envNoMeta : List Char → SmilDoc :=
  fun n => if n = "bw.smil".data then docW else noMetaDoc

/-- Fileset whose chapter document has zero audio elements. -/
def envEmptyChap : List Char → SmilDoc :=
  fun n => if n = "bw.smil".data then docW else emptyDoc

/-! Helper lemmas about the filename sanitizer. -/

theorem mem_of_mem_dropWhile {p : Char → Bool} :
    ∀ {l : List Char} {c : Char}, c ∈ l.dropWhile p → c ∈ l := by
  intro l c h
  induction l with
  | nil => simp at h
  | cons a t ih =>
    rw [List.dropWhile_cons] at h
    by_cases hp : p a
    · simp only [hp, if_true] at h
      exact List.mem_cons_of_mem a (ih h)
    · simpa [hp] using h

theorem mem_of_mem_rstrip {l : List Char} {c : Char} (h : c ∈ rstripDotSpace l) : c ∈ l := by
  unfold rstripDotSpace at h
  rw [List.mem_reverse] at h
  have := mem_of_mem_dropWhile h
  rwa [List.mem_reverse] at this

theorem not_disallowed_of_mem_translate {l : List Char} {c : Char}
    (h : c ∈ pyTranslate l) : c ∉ disallowed_chars := by
  unfold pyTranslate at h
  rcases List.mem_map.mp h with ⟨a, _, rfl⟩
  by_cases ha : a ∈ disallowed_chars
  · rw [if_pos ha]; decide
  · rwa [if_neg ha]

theorem not_disallowed_of_mem_msf {l : List Char} {c : Char}
    (h : c ∈ make_safe_filename l) : c ∉ disallowed_chars :=
  not_disallowed_of_mem_translate (mem_of_mem_rstrip h)

theorem replaceColonSpace_of_no_colon :
    ∀ (l : List Char), ':' ∉ l → replaceColonSpace l = l := by
  intro l
  induction l using replaceColonSpace.induct with
  | case1 => intro; rfl
  | case2 c => intro; rfl
  | case3 c d rest h ih =>
    intro hm
    obtain ⟨hc, hd⟩ := h
    subst hc
    exact absurd (List.mem_cons_self _ _) hm
  | case4 c d rest h ih =>
    intro hm
    rw [replaceColonSpace, if_neg h]
    congr 1
    exact ih fun x => hm (List.mem_cons_of_mem c x)

theorem pyTranslate_of_not_disallowed {l : List Char}
    (h : ∀ c ∈ l, c ∉ disallowed_chars) : pyTranslate l = l := by
  unfold pyTranslate
  induction l with
  | nil => rfl
  | cons a t ih =>
    rw [List.map_cons, if_neg (h a (List.mem_cons_self _ _)),
      ih fun c hc => h c (List.mem_cons_of_mem a hc)]

theorem rstrip_idem (l : List Char) : rstripDotSpace (rstripDotSpace l) = rstripDotSpace l := by
  unfold rstripDotSpace
  rw [List.reverse_reverse, List.dropWhile_idempotent]

theorem msf_idem (x : List Char) :
    make_safe_filename (make_safe_filename x) = make_safe_filename x := by
  have hnc : ':' ∉ make_safe_filename x := fun h =>
    absurd (by decide : ':' ∈ disallowed_chars) (not_disallowed_of_mem_msf h)
  have h1 : replaceColonSpace (make_safe_filename x) = make_safe_filename x :=
    replaceColonSpace_of_no_colon _ hnc
  have h2 : pyTranslate (make_safe_filename x) = make_safe_filename x :=
    pyTranslate_of_not_disallowed fun c hc => not_disallowed_of_mem_msf hc
  show rstripDotSpace (pyTranslate (replaceColonSpace (make_safe_filename x))) = _
  rw [h1, h2]
  exact rstrip_idem _

theorem mem_disallowed_iff (c : Char) :
    c ∈ disallowed_chars ↔
      c ∈ ['<', '>', ':', '"', '/', '\\', '|', '?', '*', '^'] ∨ c.toNat < 32 := by
  unfold disallowed_chars
  rw [List.mem_append]
  apply or_congr_right
  constructor
  · intro h
    rcases List.mem_map.mp h with ⟨i, hi, rfl⟩
    rw [List.mem_range] at hi
    interval_cases i <;> decide
  · intro h
    exact List.mem_map.mpr ⟨c.toNat, List.mem_range.mpr h, Char.ofNat_toNat c⟩

/-- Claim C6 (corrected).  The sanitizer first replaces `": "` with `" - "`,
then maps every disallowed character to `_`, then trims trailing periods and
spaces — but the disallowed set is `<>:"/\|?*^` plus the ASCII control
characters 0–31 only: in the source the braces of
`'<>:"/\\|?*^{}'.format(...)` are the `str.format` placeholder and are
consumed by the formatting call, so `{` and `}` are not disallowed and do
survive into the output, contrary to the claim's final clause. -/
theorem claim6_sanitizer :
    (∀ l : List Char,
        make_safe_filename l = rstripDotSpace (pyTranslate (replaceColonSpace l))) ∧
      (∀ c : Char, c ∈ disallowed_chars ↔
        c ∈ ['<', '>', ':', '"', '/', '\\', '|', '?', '*', '^'] ∨ c.toNat < 32) ∧
      '{' ∉ disallowed_chars ∧ '}' ∉ disallowed_chars ∧
      make_safe_filename "a\x7bb\x7d".data = "a\x7bb\x7d".data :=
  ⟨fun _ => rfl, mem_disallowed_iff, by decide, by decide, by decide⟩

/-- Claim C6, counterexample to the original statement: on input `"{"` the
sanitizer returns `"{"` unchanged, so `'{'` survives into the output. -/
theorem claim6_sanitizer_counterexample :
    make_safe_filename "\x7b".data = "\x7b".data ∧ '{' ∈ make_safe_filename "\x7b".data := by
  constructor
  · decide
  · decide

/-- Claim C7 (corrected).  The sanitizer is a total Lean function, idempotent
on every input, and its output contains no character of the actual disallowed
set (`<>:"/\|?*^` and ASCII 0–31); the claim's parenthetical adding `'{'` and
`'}'` to that set does not hold of the code, since `str.format` consumes the
braces of the set-building expression. -/
theorem claim7_sanitizer_idem :
    (∀ x : List Char,
        make_safe_filename (make_safe_filename x) = make_safe_filename x) ∧
      ∀ (x : List Char) (c : Char), c ∈ make_safe_filename x → c ∉ disallowed_chars :=
  ⟨msf_idem, fun _ _ h => not_disallowed_of_mem_msf h⟩

/-- Claim C7, witness: the second part applied at a concrete input. -/
theorem claim7_sanitizer_idem_witness :
    'a' ∈ make_safe_filename "a:b".data ∧ 'a' ∉ disallowed_chars :=
  ⟨by decide, claim7_sanitizer_idem.2 "a:b".data 'a' (by decide)⟩

/-- Claim C7, counterexample to the original statement: the output of the
sanitizer can contain `'{'`, which the claim counts among the disallowed
characters that must never appear. -/
theorem claim7_sanitizer_idem_counterexample :
    '{' ∈ make_safe_filename "a\x7b".data := by
  decide

/-! Helper lemmas about the navigation tree builder. -/

theorem flushCur1_keys (s : BuildState) :
    (flushCur1 s).map bookKey =
      s.books.map bookKey ++
        (match s.cur1 with
         | some b => [(b.title, b.path)]
         | none => []) := by
  unfold flushCur1
  cases s.cur1 <;> simp [bookKey, Smil.title, Smil.file_name]

theorem closeCur2_books (s : BuildState) : (closeCur2 s).books = s.books := by
  unfold closeCur2
  cases s.cur2 with
  | none => rfl
  | some c =>
    cases hc : c.attached
    · simp [hc]
    · simp [hc]
      cases s.cur1 <;> rfl

theorem closeCur2_cur1_key (s : BuildState) :
    (match (closeCur2 s).cur1 with
     | some b => [((b.title : List Char), b.path)]
     | none => ([] : List (List Char × List Char))) =
      (match s.cur1 with
       | some b => [(b.title, b.path)]
       | none => []) := by
  unfold closeCur2
  cases s.cur2 with
  | none => rfl
  | some c =>
    cases hc : c.attached
    · simp [hc]
    · simp [hc]
      cases s.cur1 <;> rfl

theorem finalize_keys (s : BuildState) :
    (finalize s).map bookKey =
      s.books.map bookKey ++
        (match s.cur1 with
         | some b => [(b.title, b.path)]
         | none => []) := by
  unfold finalize
  rw [flushCur1_keys, closeCur2_books, closeCur2_cur1_key]

theorem keysF_step (s : BuildState) (h : Heading) :
    (finalize (step s h)).map bookKey =
      (finalize s).map bookKey ++ (keptKey h).toList := by
  unfold step keptKey
  cases htag : h.tag
  case h1 =>
    cases hk : kept h
    · simp only [Bool.false_eq_true, if_false]
      rw [finalize_keys, finalize_keys, closeCur2_books, closeCur2_cur1_key]
      simp [htag, hk]
    · simp only [if_true]
      rw [finalize_keys, finalize_keys]
      simp only []
      rw [flushCur1_keys, closeCur2_books, closeCur2_cur1_key]
      simp [htag, hk, List.append_assoc]
  case h2 =>
    rw [finalize_keys, finalize_keys, closeCur2_books, closeCur2_cur1_key]
    simp [htag]
  case h3 =>
    cases hc2 : s.cur2
    · simp [htag, hc2]
    · rw [finalize_keys, finalize_keys]
      simp [htag]

theorem keysF_runFrom (hs : List Heading) :
    ∀ s : BuildState,
      (finalize (runFrom s hs)).map bookKey =
        (finalize s).map bookKey ++ hs.filterMap keptKey := by
  induction hs with
  | nil => intro s; simp [runFrom]
  | cons h t ih =>
    intro s
    have : runFrom s (h :: t) = runFrom (step s h) t := rfl
    rw [this, ih, keysF_step, List.filterMap_cons, List.append_assoc]
    cases hv : keptKey h <;> simp [hv]

theorem get_smils_keys (hs : List Heading) :
    (get_smils hs).map bookKey = hs.filterMap keptKey := by
  unfold get_smils
  rw [keysF_runFrom]
  rfl

theorem keptKey_eq_keptNextKey :
    ∀ hs : List Heading, sibsCoherent hs →
      hs.filterMap keptKey = (withNext hs).filterMap keptNextKey := by
  intro hs
  induction hs with
  | nil => intro; rfl
  | cons h t ih =>
    intro hc
    cases t with
    | nil =>
      have hsib : h.sib = none := hc
      simp [withNext, List.filterMap_cons, keptKey, keptNextKey, kept, hsib]
    | cons h2 t2 =>
      obtain ⟨hsib, hrest⟩ := hc
      have heq : keptKey h = keptNextKey (h, some h2) := by
        unfold keptKey keptNextKey kept
        rw [hsib]
        by_cases h1 : h.tag = HTag.h1
        · by_cases h2t : h2.tag = HTag.h1
          · simp [h1, h2t]
          · simp [h1, h2t]
        · simp [h1]
      have lhs : List.filterMap keptKey (h :: h2 :: t2) =
          (keptKey h).toList ++ List.filterMap keptKey (h2 :: t2) := by
        cases hv : keptKey h <;> simp [List.filterMap_cons, hv]
      have rhs : List.filterMap keptNextKey ((h, some h2) :: withNext (h2 :: t2)) =
          (keptNextKey (h, some h2)).toList ++
            List.filterMap keptNextKey (withNext (h2 :: t2)) := by
        cases hv : keptNextKey (h, some h2) <;> simp [List.filterMap_cons, hv]
      show List.filterMap keptKey (h :: h2 :: t2) =
        List.filterMap keptNextKey ((h, some h2) :: withNext (h2 :: t2))
      rw [lhs, rhs, heq, ih hrest]

theorem wf_closeCur2 {s : BuildState} (h : wfState s) : wfState (closeCur2 s) := by
  obtain ⟨h1, h2, h3⟩ := h
  unfold closeCur2
  cases hc2 : s.cur2 with
  | none => exact ⟨h1, h2, h3⟩
  | some c =>
    cases hatt : c.attached
    · simp only [hatt, Bool.false_eq_true, if_false]
      exact ⟨h1, h2, by intro c' hc'; simp at hc'⟩
    · simp only [hatt, if_true]
      cases hc1 : s.cur1 with
      | none =>
        refine ⟨h1, ?_, ?_⟩
        · intro b hb
          simp at hb
        · intro c' hc'
          simp at hc'
      | some b =>
        refine ⟨h1, ?_, by intro c' hc'; simp at hc'⟩
        intro b' hb' ch hch
        simp only [Option.some.injEq] at hb'
        subst hb'
        simp only [List.mem_append, List.mem_singleton] at hch
        rcases hch with hch | rfl
        · exact h2 b hc1 ch hch
        · exact ⟨rfl, h3 c hc2⟩

theorem wf_step {s : BuildState} (h : wfState s) (hd : Heading) : wfState (step s hd) := by
  unfold step
  cases htag : hd.tag
  case h1 =>
    cases hk : kept hd
    · simp only [hk, Bool.false_eq_true, if_false]
      obtain ⟨h1, h2, _⟩ := wf_closeCur2 h
      exact ⟨h1, h2, by intro c' hc'; simp at hc'⟩
    · simp only [hk, if_true]
      obtain ⟨h1, h2, _⟩ := wf_closeCur2 h
      refine ⟨?_, ?_, ?_⟩
      · intro b hb
        unfold flushCur1 at hb
        rw [List.mem_append] at hb
        rcases hb with hb | hb
        · exact h1 b hb
        · cases hc1 : (closeCur2 s).cur1 with
          | none => rw [hc1] at hb; simp at hb
          | some b' =>
            rw [hc1] at hb
            simp only [List.mem_singleton] at hb
            subst hb
            exact ⟨rfl, h2 b' hc1⟩
      · intro b hb ch hch
        simp only [Option.some.injEq] at hb
        subst hb
        simp at hch
      · intro c' hc'
        simp at hc'
  case h2 =>
    obtain ⟨h1, h2, _⟩ := wf_closeCur2 h
    refine ⟨h1, h2, ?_⟩
    intro c' hc'
    simp only [Option.some.injEq] at hc'
    subst hc'
    intro x hx
    simp at hx
  case h3 =>
    cases hc2 : s.cur2 with
    | none => exact h
    | some c =>
      obtain ⟨h1, h2, h3⟩ := h
      refine ⟨h1, h2, ?_⟩
      intro c' hc'
      simp only [Option.some.injEq] at hc'
      subst hc'
      intro x hx
      simp only [List.mem_append, List.mem_singleton] at hx
      rcases hx with hx | rfl
      · exact h3 c hc2 x hx
      · exact ⟨rfl, rfl⟩

theorem wf_runFrom (hs : List Heading) :
    ∀ s : BuildState, wfState s → wfState (runFrom s hs) := by
  induction hs with
  | nil => intro s h; exact h
  | cons hd t ih => intro s h; exact ih (step s hd) (wf_step h hd)

theorem wf_get_smils (hs : List Heading) : ∀ b ∈ get_smils hs, wf1 b := by
  have hinit : wfState ⟨[], none, none⟩ := by
    refine ⟨by intro b hb; simp at hb, by intro b hb; simp at hb, by intro c hc; simp at hc⟩
  have hrun := wf_runFrom hs _ hinit
  obtain ⟨h1, h2, _⟩ := wf_closeCur2 hrun
  intro b hb
  unfold get_smils finalize at hb
  unfold flushCur1 at hb
  rw [List.mem_append] at hb
  rcases hb with hb | hb
  · exact h1 b hb
  · cases hc1 : (closeCur2 (runFrom ⟨[], none, none⟩ hs)).cur1 with
    | none => rw [hc1] at hb; simp at hb
    | some b' =>
      rw [hc1] at hb
      simp only [List.mem_singleton] at hb
      subst hb
      exact ⟨rfl, h2 b' hc1⟩

theorem step_h3_cur2_none {s : BuildState} (h2 : s.cur2 = none) {hd : Heading}
    (ht : hd.tag = HTag.h3) : step s hd = s := by
  unfold step
  rw [ht, h2]

theorem runFrom_cur2_none :
    ∀ (pre : List Heading) (s : BuildState), s.cur2 = none →
      (∀ x ∈ pre, x.tag ≠ HTag.h2) → (runFrom s pre).cur2 = none := by
  intro pre
  induction pre with
  | nil => intro s h _; exact h
  | cons hd t ih =>
    intro s h hno
    have hstep : (step s hd).cur2 = none := by
      unfold step
      cases htag : hd.tag
      case h1 => cases hk : kept hd <;> simp [hk]
      case h2 => exact absurd htag (hno hd (List.mem_cons_self _ _))
      case h3 =>
        simp only [h]
    exact ih (step s hd) hstep fun x hx => hno x (List.mem_cons_of_mem hd hx)

theorem runFrom_append (s : BuildState) (l1 l2 : List Heading) :
    runFrom s (l1 ++ l2) = runFrom (runFrom s l1) l2 := by
  unfold runFrom
  rw [List.foldl_append]

theorem drop_orphan_h3 (pre post : List Heading) (hd : Heading)
    (ht : hd.tag = HTag.h3) (hno : ∀ x ∈ pre, x.tag ≠ HTag.h2) :
    get_smils (pre ++ hd :: post) = get_smils (pre ++ post) := by
  unfold get_smils
  have hc2 : (runFrom ⟨[], none, none⟩ pre).cur2 = none :=
    runFrom_cur2_none pre _ rfl hno
  have hsplit : runFrom ⟨[], none, none⟩ (pre ++ hd :: post) =
      runFrom (step (runFrom ⟨[], none, none⟩ pre) hd) post := by
    rw [runFrom_append]
    rfl
  rw [hsplit, step_h3_cur2_none hc2 ht, ← runFrom_append]

/-- Claim C8 (confirmed).  Every tree `get_smils` produces satisfies the
level invariant (level-1 books have only level-2 children, level-2 chapters
only level-3 children, level-3 nodes are childless), for any heading list
including malformed nesting; and a level-3 heading occurring before any
level-2 heading is silently dropped: deleting it from the input leaves the
output unchanged, and no failure is possible (`get_smils` is total). -/
theorem claim8_level_invariant :
    (∀ (hs : List Heading) (b : Smil), b ∈ get_smils hs → wf1 b) ∧
      ∀ (pre post : List Heading) (h3h : Heading), h3h.tag = HTag.h3 →
        (∀ x ∈ pre, x.tag ≠ HTag.h2) →
        get_smils (pre ++ h3h :: post) = get_smils (pre ++ post) :=
  ⟨fun hs b hb => wf_get_smils hs b hb,
   fun pre post h3h ht hno => drop_orphan_h3 pre post h3h ht hno⟩

/-- Claim C8, witness: both parts at concrete inputs. -/
theorem claim8_witness :
    (Smil.mk 1 "A".data "a.smil".data [Smil.mk 2 "A.1".data "a1.smil".data []] ∈
        get_smils [hA, hA1, hB] →
      wf1 (Smil.mk 1 "A".data "a.smil".data [Smil.mk 2 "A.1".data "a1.smil".data []])) ∧
      get_smils ([] ++ hOrphan :: [hA, hA1]) = get_smils ([] ++ [hA, hA1]) :=
  ⟨claim8_level_invariant.1 [hA, hA1, hB] _,
   claim8_level_invariant.2 [] [hA, hA1] hOrphan rfl (by intro x hx; simp at hx)⟩

/-- Claim C2 (confirmed).  For a flat heading list (sibling lookahead agrees
with the list successor), the books produced are exactly the level-1 headings
whose next heading exists and is not level 1, in order and with their titles
and paths; and the sequence `[h1 "A", h2 "A.1", h1 "B"]` yields exactly one
book `"A"` containing exactly the chapter `"A.1"` and no book for `"B"`. -/
theorem claim2_book_filter :
    (∀ hs : List Heading, sibsCoherent hs →
        (get_smils hs).map bookKey = (withNext hs).filterMap keptNextKey) ∧
      get_smils [hA, hA1, hB] =
        [Smil.mk 1 "A".data "a.smil".data [Smil.mk 2 "A.1".data "a1.smil".data []]] :=
  ⟨fun hs hc => by rw [get_smils_keys, keptKey_eq_keptNextKey hs hc], rfl⟩

/-- Claim C2, witness: the general part applied to the example list. -/
theorem claim2_book_filter_witness :
    sibsCoherent [hA, hA1, hB] ∧
      (get_smils [hA, hA1, hB]).map bookKey =
        (withNext [hA, hA1, hB]).filterMap keptNextKey :=
  ⟨⟨rfl, rfl, rfl⟩, claim2_book_filter.1 [hA, hA1, hB] ⟨rfl, rfl, rfl⟩⟩

theorem runFrom_subs (subs : List Heading) (hall : ∀ x ∈ subs, x.tag = HTag.h3) :
    ∀ (bs : List Smil) (c1 : Option OpenBook) (t p : List Char) (acc : List Smil) (att : Bool),
      runFrom ⟨bs, c1, some ⟨t, p, acc, att⟩⟩ subs =
        ⟨bs, c1, some ⟨t, p, acc ++ subs.map (fun x => Smil.mk 3 x.title x.path []), att⟩⟩ := by
  induction subs with
  | nil => intro bs c1 t p acc att; simp [runFrom]
  | cons x rest ih =>
    intro bs c1 t p acc att
    have hx : x.tag = HTag.h3 := hall x (List.mem_cons_self _ _)
    have hrest : ∀ y ∈ rest, y.tag = HTag.h3 := fun y hy => hall y (List.mem_cons_of_mem x hy)
    have hstep : step ⟨bs, c1, some ⟨t, p, acc, att⟩⟩ x =
        ⟨bs, c1, some ⟨t, p, acc ++ [Smil.mk 3 x.title x.path []], att⟩⟩ := by
      unfold step
      rw [hx]
    show runFrom (step ⟨bs, c1, some ⟨t, p, acc, att⟩⟩ x) rest = _
    rw [hstep, ih hrest]
    simp [List.append_assoc]

/-- Claim C10 (confirmed).  Discarding a level-1 heading (its recorded next
sibling being absent or another `h1`) leaves the current-book pointer intact:
a following level-2 heading, together with its level-3 subheadings, is
appended as a chapter of the most recently kept book when one is open. -/
theorem claim10_pointer_kept (s : BuildState) (d g : Heading) (subs : List Heading)
    (b : OpenBook) (hd1 : d.tag = HTag.h1) (hnk : kept d = false) (hg : g.tag = HTag.h2)
    (hsubs : ∀ x ∈ subs, x.tag = HTag.h3) (hb : (closeCur2 s).cur1 = some b) :
    finalize (runFrom s (d :: g :: subs)) =
      (closeCur2 s).books ++
        [Smil.mk 1 b.title b.path (b.chapters ++
          [Smil.mk 2 g.title g.path (subs.map fun x => Smil.mk 3 x.title x.path [])])] := by
  have hstepd : step s d = ⟨(closeCur2 s).books, some b, none⟩ := by
    unfold step
    rw [hd1]
    simp only [hnk, Bool.false_eq_true, if_false]
    rw [hb]
  have hstepg : step ⟨(closeCur2 s).books, some b, none⟩ g =
      ⟨(closeCur2 s).books, some b, some ⟨g.title, g.path, [], true⟩⟩ := by
    unfold step
    rw [hg]
    rfl
  show finalize (runFrom (step s d) (g :: subs)) = _
  rw [hstepd]
  show finalize (runFrom (step ⟨(closeCur2 s).books, some b, none⟩ g) subs) = _
  rw [hstepg, runFrom_subs subs hsubs]
  unfold finalize closeCur2 flushCur1
  simp

/-- Claim C10, witness: after the kept book `"A"` with chapter `"A.1"`, the
discarded `h1 "D"` is followed by `h2 "X"` and `h3 "y"`, which land inside
book `"A"`. -/
theorem claim10_pointer_kept_witness :
    hD.tag = HTag.h1 ∧ kept hD = false ∧ hX.tag = HTag.h2 ∧
      (∀ x ∈ [hY], x.tag = HTag.h3) ∧
      (closeCur2 (runFrom ⟨[], none, none⟩ [hA, hA1])).cur1 =
        some ⟨"A".data, "a.smil".data, [Smil.mk 2 "A.1".data "a1.smil".data []]⟩ ∧
      finalize (runFrom (runFrom ⟨[], none, none⟩ [hA, hA1]) (hD :: hX :: [hY])) =
        (closeCur2 (runFrom ⟨[], none, none⟩ [hA, hA1])).books ++
          [Smil.mk 1 "A".data "a.smil".data
            ([Smil.mk 2 "A.1".data "a1.smil".data []] ++
              [Smil.mk 2 hX.title hX.path ([hY].map fun x => Smil.mk 3 x.title x.path [])])] :=
  ⟨rfl, rfl, rfl,
   fun x hx => by rw [List.mem_singleton] at hx; subst hx; rfl,
   rfl,
   claim10_pointer_kept (runFrom ⟨[], none, none⟩ [hA, hA1]) hD hX [hY]
     ⟨"A".data, "a.smil".data, [Smil.mk 2 "A.1".data "a1.smil".data []]⟩
     rfl rfl rfl (fun x hx => by rw [List.mem_singleton] at hx; subst hx; rfl) rfl⟩

/-! Helper lemmas about elapsed-time parsing. -/

theorem parseFields_append (l1 l2 : List (List Char)) :
    parseFields (l1 ++ l2) =
      (do
        let a ← parseFields l1
        let b ← parseFields l2
        some (a ++ b)) := by
  induction l1 with
  | nil =>
    cases h : parseFields l2 <;> simp [parseFields, h]
  | cons p rest ih =>
    show parseFields (p :: (rest ++ l2)) = _
    simp only [parseFields]
    rw [ih]
    cases hp : pyDecimal p
    · rfl
    · cases h1 : parseFields rest
      · rfl
      · cases h2 : parseFields l2 <;> simp

theorem parseFields_reverse :
    ∀ {l : List (List Char)} {ds : List Rat}, parseFields l = some ds →
      parseFields l.reverse = some ds.reverse := by
  intro l
  induction l with
  | nil =>
    intro ds h
    simp [parseFields] at h
    subst h
    rfl
  | cons p rest ih =>
    intro ds h
    unfold parseFields at h
    cases hp : pyDecimal p with
    | none => rw [hp] at h; exact absurd h (by simp)
    | some d =>
      rw [hp] at h
      cases hr : parseFields rest with
      | none => rw [hr] at h; exact absurd h (by simp)
      | some a =>
        rw [hr] at h
        simp at h
        subst h
        rw [List.reverse_cons, parseFields_append, ih hr]
        simp [parseFields, hp]

theorem weightedSum_append (l1 l2 : List Rat) :
    ∀ i : Nat, weightedSum (l1 ++ l2) i = weightedSum l1 i + weightedSum l2 (i + l1.length) := by
  induction l1 with
  | nil => intro i; simp [weightedSum]
  | cons d rest ih =>
    intro i
    show weightedSum (d :: (rest ++ l2)) i = _
    simp only [weightedSum, List.length_cons]
    rw [ih (i + 1), show i + 1 + rest.length = i + (rest.length + 1) from by ring]
    ring

theorem specElapsedSum_eq_weighted (ds : List Rat) :
    specElapsedSum ds = weightedSum ds.reverse 0 := by
  induction ds with
  | nil => rfl
  | cons d rest ih =>
    rw [List.reverse_cons, weightedSum_append]
    simp only [specElapsedSum, weightedSum, List.length_reverse, Nat.zero_add]
    rw [ih]
    ring

theorem parseElapsedFields_of_parseFields :
    ∀ (l : List (List Char)) (ds : List Rat) (i : Nat), parseFields l = some ds →
      parseElapsedFields l i = .ok (weightedSum ds i) := by
  intro l
  induction l with
  | nil =>
    intro ds i h
    simp [parseFields] at h
    subst h
    rfl
  | cons p rest ih =>
    intro ds i h
    unfold parseFields at h
    cases hp : pyDecimal p with
    | none => rw [hp] at h; exact absurd h (by simp)
    | some d =>
      rw [hp] at h
      cases hr : parseFields rest with
      | none => rw [hr] at h; exact absurd h (by simp)
      | some a =>
        rw [hr] at h
        simp at h
        subst h
        unfold parseElapsedFields
        rw [hp, ih a (i + 1) hr]
        rfl

theorem parseElapsedFields_error :
    ∀ (l : List (List Char)) (i : Nat) (p : List Char), p ∈ l → pyDecimal p = none →
      parseElapsedFields l i = .error .invalidOperation := by
  intro l
  induction l with
  | nil => intro i p h; simp at h
  | cons q rest ih =>
    intro i p hmem hp
    unfold parseElapsedFields
    rcases List.mem_cons.mp hmem with rfl | hmem2
    · rw [hp]
    · cases hq : pyDecimal q with
      | none => rfl
      | some d =>
        rw [ih (i + 1) p hmem2 hp]
        rfl

/-- Claim C4 (corrected).  Elapsed-time parsing splits on `:`, reads fields
most significant first and returns `Σ field·60^(position from the right)`
(`"01:02:03" ↦ 3723`, `"02:03" ↦ 123`); it fails (with the error the spec
calls `FormatError`) whenever some all-ASCII field is neither a finite
decimal numeral of the `Decimal` grammar — which tolerates a sign,
surrounding whitespace and grouping underscores — nor one of the quiet
`NaN`/`Infinity` spellings, which the constructor accepts so that such a
field yields a non-finite total rather than a failure.  In particular a
signed field such as `"-5"` parses to a negative value instead of failing
(see the counterexample). -/
theorem claim4_parse_elapsed :
    get_start_time ⟨some "01:02:03".data, none, []⟩ = .ok 3723 ∧
      get_start_time ⟨some "02:03".data, none, []⟩ = .ok 123 ∧
      (∀ (doc : SmilDoc) (ts : List Char) (ds : List Rat),
        doc.totalElapsedTime = some ts →
        parseFields (splitOnChar ':' ts) = some ds →
        get_start_time doc = .ok (specElapsedSum ds)) ∧
      ∀ (doc : SmilDoc) (ts p : List Char),
        doc.totalElapsedTime = some ts → p ∈ splitOnChar ':' ts →
        (∀ c ∈ p, c.toNat < 128) →
        pyDecimal p = none → pyDecSpecial p = false →
        get_start_time doc = .error .invalidOperation := by
  refine ⟨by with_unfolding_all rfl, by with_unfolding_all rfl, ?_, ?_⟩
  · intro doc ts ds h1 h2
    have hdoc : get_start_time doc = parseElapsedFields ((splitOnChar ':' ts).reverse) 0 := by
      unfold get_start_time
      rw [h1]
    rw [hdoc, parseElapsedFields_of_parseFields _ ds.reverse 0 (parseFields_reverse h2),
      ← specElapsedSum_eq_weighted]
  · intro doc ts p h1 hmem _ hp _
    have hdoc : get_start_time doc = parseElapsedFields ((splitOnChar ':' ts).reverse) 0 := by
      unfold get_start_time
      rw [h1]
    rw [hdoc]
    exact parseElapsedFields_error _ 0 p (List.mem_reverse.mpr hmem) hp

/-- Claim C4, witness: the two general parts at concrete inputs, including
fields with the surrounding whitespace and grouping underscores the
constructor tolerates. -/
theorem claim4_parse_elapsed_witness :
    parseFields (splitOnChar ':' "01:02".data) = some [1, 2] ∧
      get_start_time ⟨some "01:02".data, none, []⟩ = .ok (specElapsedSum [1, 2]) ∧
      parseFields (splitOnChar ':' "00: 05".data) = some [0, 5] ∧
      get_start_time ⟨some "00: 05".data, none, []⟩ = .ok (specElapsedSum [0, 5]) ∧
      parseFields (splitOnChar ':' "1_0:00".data) = some [10, 0] ∧
      get_start_time ⟨some "1_0:00".data, none, []⟩ = .ok (specElapsedSum [10, 0]) ∧
      pyDecimal "ab".data = none ∧ pyDecSpecial "ab".data = false ∧
      get_start_time ⟨some "xy:ab".data, none, []⟩ = .error .invalidOperation :=
  ⟨by with_unfolding_all rfl,
   claim4_parse_elapsed.2.2.1 ⟨some "01:02".data, none, []⟩ "01:02".data [1, 2] rfl
     (by with_unfolding_all rfl),
   by with_unfolding_all rfl,
   claim4_parse_elapsed.2.2.1 ⟨some "00: 05".data, none, []⟩ "00: 05".data [0, 5] rfl
     (by with_unfolding_all rfl),
   by with_unfolding_all rfl,
   claim4_parse_elapsed.2.2.1 ⟨some "1_0:00".data, none, []⟩ "1_0:00".data [10, 0] rfl
     (by with_unfolding_all rfl),
   by with_unfolding_all rfl,
   by with_unfolding_all rfl,
   claim4_parse_elapsed.2.2.2 ⟨some "xy:ab".data, none, []⟩ "xy:ab".data "ab".data rfl
     (by decide) (by decide) (by with_unfolding_all rfl) (by with_unfolding_all rfl)⟩

/-- Claim C4, counterexample to the original statement: the field `"-5"` is
not a valid non-negative number, yet parsing succeeds (Python's `Decimal`
accepts a sign), returning `-5` instead of raising. -/
theorem claim4_parse_elapsed_counterexample :
    get_start_time ⟨some "-5".data, none, []⟩ = .ok (-5) ∧
      ∀ e : Err, get_start_time ⟨some "-5".data, none, []⟩ ≠ .error e := by
  have h0 : get_start_time ⟨some "-5".data, none, []⟩ = .ok (-5) := by
    with_unfolding_all rfl
  exact ⟨h0, fun e h => by rw [h0] at h; exact Except.noConfusion h⟩

/-! Helper lemmas about segment extraction. -/

theorem mkAudio_file_name {t : AudioTag} {st : Rat} {idp : List Char} {a : Extract.Audio}
    (h : Extract.mkAudio t st idp = .ok a) : a.file_name = t.src := by
  unfold Extract.mkAudio at h
  cases hb : parseClipAttr t.clipBegin with
  | error e => rw [hb] at h; exact Except.noConfusion h
  | ok b =>
    rw [hb] at h
    cases he : parseClipAttr t.clipEnd with
    | error e => rw [he] at h; exact Except.noConfusion h
    | ok e =>
      rw [he] at h
      cases hn : pyIntBase16 (idSuffix t.id) with
      | none => rw [hn] at h; exact Except.noConfusion h
      | some n =>
        rw [hn] at h
        have h2 := Except.ok.inj h
        rw [← h2]

theorem mapAudio_src :
    ∀ {ts : List AudioTag} {st : Rat} {idp : List Char} {files : List Extract.Audio},
      Extract.mapAudio ts st idp = .ok files →
      files.map Extract.Audio.file_name = ts.map AudioTag.src := by
  intro ts
  induction ts with
  | nil =>
    intro st idp files h
    have h2 := Except.ok.inj h
    rw [← h2]
    rfl
  | cons t rest ih =>
    intro st idp files h
    unfold Extract.mapAudio at h
    cases ha : Extract.mkAudio t st idp with
    | error e => rw [ha] at h; exact Except.noConfusion h
    | ok a =>
      rw [ha] at h
      cases hr : Extract.mapAudio rest st idp with
      | error e => rw [hr] at h; exact Except.noConfusion h
      | ok as =>
        rw [hr] at h
        have h2 := Except.ok.inj h
        rw [← h2, List.map_cons, List.map_cons, mkAudio_file_name ha, ih hr]

theorem mkAudio_identifier {t : AudioTag} {st : Rat} {idp : List Char} {a : Extract.Audio}
    (h : Extract.mkAudio t st idp = .ok a) :
    ∃ n : Int, pyIntBase16 (idSuffix t.id) = some n ∧
      a.identifier = idp ++ (toString n).data := by
  unfold Extract.mkAudio at h
  cases hb : parseClipAttr t.clipBegin with
  | error e => rw [hb] at h; exact Except.noConfusion h
  | ok b =>
    rw [hb] at h
    cases he : parseClipAttr t.clipEnd with
    | error e => rw [he] at h; exact Except.noConfusion h
    | ok e =>
      rw [he] at h
      cases hn : pyIntBase16 (idSuffix t.id) with
      | none => rw [hn] at h; exact Except.noConfusion h
      | some n =>
        rw [hn] at h
        have h2 := Except.ok.inj h
        exact ⟨n, rfl, by rw [← h2]⟩

theorem mkSegment_identifier {t : AudioTag} {st : Rat} {idp : List Char}
    {sg : Readaisy.Segment} (h : Readaisy.mkSegment t st idp = .ok sg) :
    ∃ n : Int, pyIntBase16 (idSuffix t.id) = some n ∧
      sg.identifier = idp ++ " - ".data ++ (toString n).data := by
  unfold Readaisy.mkSegment at h
  cases hn : pyIntBase16 (idSuffix t.id) with
  | none => rw [hn] at h; exact Except.noConfusion h
  | some n =>
    rw [hn] at h
    cases hb : parseClipAttr t.clipBegin with
    | error e => rw [hb] at h; exact Except.noConfusion h
    | ok b =>
      rw [hb] at h
      cases he : parseClipAttr t.clipEnd with
      | error e => rw [he] at h; exact Except.noConfusion h
      | ok e =>
        rw [he] at h
        have h2 := Except.ok.inj h
        exact ⟨n, rfl, by rw [← h2]⟩

/-- Claim C5 (corrected).  A segment identifier is built from the given id
prefix and the decimal rendering of the base-16 value of the id attribute's
trailing `_`-component — but only `extract.get_audio_files` concatenates them
directly; `readaisy.get_audio` joins them with `" - "`
(`f"{id_prefix} - {int(...)}"`). -/
theorem claim5_identifier :
    (∀ (t : AudioTag) (st : Rat) (idp : List Char) (a : Extract.Audio),
        Extract.mkAudio t st idp = .ok a →
        ∃ n : Int, pyIntBase16 (idSuffix t.id) = some n ∧
          a.identifier = idp ++ (toString n).data) ∧
      ∀ (t : AudioTag) (st : Rat) (idp : List Char) (sg : Readaisy.Segment),
        Readaisy.mkSegment t st idp = .ok sg →
        ∃ n : Int, pyIntBase16 (idSuffix t.id) = some n ∧
          sg.identifier = idp ++ " - ".data ++ (toString n).data :=
  ⟨fun _ _ _ _ h => mkAudio_identifier h, fun _ _ _ _ h => mkSegment_identifier h⟩

/-- Claim C5, witness: both parts at a concrete audio tag. -/
theorem claim5_identifier_witness :
    (∃ n : Int, pyIntBase16 (idSuffix mixTag1.id) = some n ∧
        (Extract.Audio.mk "P1".data "a.mp3".data 0 1).identifier =
          "P".data ++ (toString n).data) ∧
      ∃ n : Int, pyIntBase16 (idSuffix mixTag1.id) = some n ∧
        (Readaisy.Segment.mk "P - 1".data 0 1).identifier =
          "P".data ++ " - ".data ++ (toString n).data :=
  ⟨claim5_identifier.1 mixTag1 0 "P".data ⟨"P1".data, "a.mp3".data, 0, 1⟩
      (by with_unfolding_all rfl),
   claim5_identifier.2 mixTag1 0 "P".data ⟨"P - 1".data, 0, 1⟩
      (by with_unfolding_all rfl)⟩

/-- Claim C5, counterexample to the original statement: with prefix `"P"` and
id suffix `ff`, readaisy's segment identifier is `"P - 255"`, not the direct
concatenation `"P255"`. -/
theorem claim5_identifier_counterexample :
    Readaisy.mkSegment ⟨"a.mp3".data, "npt=0s".data, "npt=1s".data, "x_ff".data⟩ 0
        "P".data = .ok ⟨"P - 255".data, 0, 1⟩ ∧
      "P - 255".data ≠ "P".data ++ "255".data :=
  ⟨by with_unfolding_all rfl, by decide⟩

/-- Claim C3 (corrected).  `extract.get_audio_files` performs the consistency
check: with parseable attributes, a document whose audio elements reference
more than one distinct source name fails with the error the spec calls
`InconsistentSourceError` (naming the last element's source), and a document
whose elements all reference one name yields exactly one segment per element,
in document order.  `readaisy.get_audio`, however, performs no such check: it
succeeds on mixed sources, taking the first element's source as the file
name. -/
theorem claim3_source_consistency :
    (∀ (doc : SmilDoc) (st : Rat) (idp : List Char) (files : List Extract.Audio)
        (lt : AudioTag),
        Extract.mapAudio doc.audioTags st idp = .ok files →
        doc.audioTags.getLast? = some lt →
        (∃ t ∈ doc.audioTags, t.src ≠ lt.src) →
        Extract.get_audio_files doc st idp = .error (.inconsistentSource lt.src)) ∧
      (∀ (doc : SmilDoc) (st : Rat) (idp : List Char) (files : List Extract.Audio)
        (s : List Char),
        Extract.mapAudio doc.audioTags st idp = .ok files →
        (∀ t ∈ doc.audioTags, t.src = s) →
        Extract.get_audio_files doc st idp = .ok files ∧
          files.length = doc.audioTags.length ∧
          files.map Extract.Audio.file_name = doc.audioTags.map AudioTag.src) ∧
      ∀ (doc : SmilDoc) (st : Rat) (idp : List Char) (sq : SeqTag) (d : Rat)
        (t0 : AudioTag) (segs : List Readaisy.Segment),
        doc.seq = some sq → pyDecimal sq.dur.dropLast = some d →
        sq.audio.head? = some t0 →
        Readaisy.mapSegments sq.audio st idp = .ok segs →
        Readaisy.get_audio doc st idp = .ok ⟨t0.src, st, d, segs⟩ := by
  refine ⟨?_, ?_, ?_⟩
  · intro doc st idp files lt hmap hlast ⟨t, htmem, htne⟩
    unfold Extract.get_audio_files
    rw [hmap]
    have hbind : (Except.ok files >>= fun files =>
        match doc.audioTags.getLast? with
        | none => Except.ok files
        | some lt =>
          if files.all fun a => a.file_name == lt.src then Except.ok files
          else Except.error (Err.inconsistentSource lt.src)) =
        (match doc.audioTags.getLast? with
        | none => Except.ok files
        | some lt =>
          if files.all fun a => a.file_name == lt.src then Except.ok files
          else Except.error (Err.inconsistentSource lt.src)) := rfl
    rw [hbind, hlast]
    have hsrc := mapAudio_src hmap
    have : t.src ∈ files.map Extract.Audio.file_name := by
      rw [hsrc]
      exact List.mem_map.mpr ⟨t, htmem, rfl⟩
    rcases List.mem_map.mp this with ⟨a, hamem, haeq⟩
    have hall : (files.all fun a => a.file_name == lt.src) = false := by
      rw [List.all_eq_false]
      refine ⟨a, hamem, ?_⟩
      rw [haeq]
      simp [htne]
    show (if (files.all fun a => a.file_name == lt.src) = true then Except.ok files
      else Except.error (Err.inconsistentSource lt.src)) =
        Except.error (Err.inconsistentSource lt.src)
    rw [hall]
    simp
  · intro doc st idp files s hmap huni
    have hsrc := mapAudio_src hmap
    have hok : Extract.get_audio_files doc st idp = .ok files := by
      unfold Extract.get_audio_files
      rw [hmap]
      show (match doc.audioTags.getLast? with
        | none => Except.ok files
        | some lt =>
          if files.all fun a => a.file_name == lt.src then Except.ok files
          else Except.error (Err.inconsistentSource lt.src)) = Except.ok files
      cases hlast : doc.audioTags.getLast? with
      | none => rfl
      | some lt =>
        have hmemlt : lt ∈ doc.audioTags := by
          rcases List.mem_getLast?_eq_getLast (Option.mem_def.mpr hlast) with ⟨hne, heq⟩
          rw [heq]
          exact List.getLast_mem hne
        have hlt : lt.src = s := huni lt hmemlt
        have hall : (files.all fun a => a.file_name == lt.src) = true := by
          rw [List.all_eq_true]
          intro a hamem
          have : a.file_name ∈ doc.audioTags.map AudioTag.src := by
            rw [← hsrc]
            exact List.mem_map.mpr ⟨a, hamem, rfl⟩
          rcases List.mem_map.mp this with ⟨t, htmem, hteq⟩
          rw [← hteq, huni t htmem, hlt]
          simp
        show (if (files.all fun a => a.file_name == lt.src) = true then Except.ok files
          else Except.error (Err.inconsistentSource lt.src)) = Except.ok files
        rw [hall]
        simp
    refine ⟨hok, ?_, hsrc⟩
    have := congrArg List.length hsrc
    simpa using this
  · intro doc st idp sq d t0 segs hseq hdur hhead hsegs
    simp [Readaisy.get_audio, hseq, hdur, hhead, hsegs]
    rfl

/-- Claim C3, witness: the failing part on a two-source document and the
succeeding part on a single-source document. -/
theorem claim3_source_consistency_witness :
    Extract.get_audio_files mixDoc 0 [] =
        .error (.inconsistentSource "b.mp3".data) ∧
      Extract.get_audio_files docW 0 [] =
        .ok [⟨"1".data, "w.mp3".data, 0, 2⟩, ⟨"2".data, "w.mp3".data, 5, 7⟩] :=
  ⟨by
    have h := claim3_source_consistency.1 mixDoc 0 []
      [⟨"1".data, "a.mp3".data, 0, 1⟩, ⟨"2".data, "b.mp3".data, 1, 2⟩] mixTag2
      (by with_unfolding_all rfl) (by decide) ⟨mixTag1, by decide, by decide⟩
    simpa using h,
   (claim3_source_consistency.2.1 docW 0 []
      [⟨"1".data, "w.mp3".data, 0, 2⟩, ⟨"2".data, "w.mp3".data, 5, 7⟩] "w.mp3".data
      (by with_unfolding_all rfl) (by decide)).1⟩

/-- Claim C3, counterexample to the original statement: a document whose two
audio elements reference distinct source files (`a.mp3` and `b.mp3`) makes
`readaisy.get_audio` succeed rather than fail. -/
theorem claim3_source_consistency_counterexample :
    Readaisy.get_audio mixDoc 0 [] =
        .ok ⟨"a.mp3".data, 0, 3,
          [⟨" - 1".data, 0, 1⟩, ⟨" - 2".data, 1, 2⟩]⟩ ∧
      mixTag1.src ≠ mixTag2.src :=
  ⟨by with_unfolding_all rfl, by decide⟩

/-! Helper lemmas about missing metadata and empty sections. -/

theorem get_start_time_noMeta {doc : SmilDoc} (h : doc.totalElapsedTime = none) :
    get_start_time doc = .error .noMetaTag := by
  unfold get_start_time
  rw [h]

theorem get_audio_files_nil {doc : SmilDoc} (h : doc.audioTags = [])
    (st : Rat) (idp : List Char) : Extract.get_audio_files doc st idp = .ok [] := by
  unfold Extract.get_audio_files
  rw [h]
  rfl

theorem collect_chapters_noMeta (env : List Char → SmilDoc) (cp : Smil → List Char)
    (sp : Smil → Nat → List Char) (bs : Rat) (c : Smil) (rest : List Smil)
    (h : (env c.file_name).totalElapsedTime = none) :
    Extract.collect_chapters env cp sp bs (c :: rest) = .error .noMetaTag := by
  unfold Extract.collect_chapters
  show (do
    let cstart ← get_start_time (env c.file_name)
    let cfiles ← Extract.get_audio_files (env c.file_name) (cstart - bs) (cp c)
    let _ ← Extract.idx0 cfiles
    let subs ← Extract.collect_subs env (sp c) bs 1 c.children
    let more ← Extract.collect_chapters env cp sp bs rest
    Except.ok (cfiles ++ subs ++ more)) = Except.error Err.noMetaTag
  rw [get_start_time_noMeta h]
  rfl

theorem collect_chapters_empty (env : List Char → SmilDoc) (cp : Smil → List Char)
    (sp : Smil → Nat → List Char) (bs : Rat) (c : Smil) (rest : List Smil) (a : Rat)
    (hstart : get_start_time (env c.file_name) = .ok a)
    (hempty : (env c.file_name).audioTags = []) :
    Extract.collect_chapters env cp sp bs (c :: rest) = .error .indexError := by
  unfold Extract.collect_chapters
  show (do
    let cstart ← get_start_time (env c.file_name)
    let cfiles ← Extract.get_audio_files (env c.file_name) (cstart - bs) (cp c)
    let _ ← Extract.idx0 cfiles
    let subs ← Extract.collect_subs env (sp c) bs 1 c.children
    let more ← Extract.collect_chapters env cp sp bs rest
    Except.ok (cfiles ++ subs ++ more)) = Except.error Err.indexError
  rw [hstart]
  show (do
    let cfiles ← Extract.get_audio_files (env c.file_name) (a - bs) (cp c)
    let _ ← Extract.idx0 cfiles
    let subs ← Extract.collect_subs env (sp c) bs 1 c.children
    let more ← Extract.collect_chapters env cp sp bs rest
    Except.ok (cfiles ++ subs ++ more)) = Except.error Err.indexError
  rw [get_audio_files_nil hempty]
  rfl

theorem collect_book_child_fails (env : List Char → SmilDoc) (cp : Smil → List Char)
    (sp : Smil → Nat → List Char) (book : Smil) (F : List Extract.Audio) (ab : Rat)
    (e : Err) (hgaf : Extract.get_audio_files (env book.file_name) 0 [] = .ok F)
    (hstart : get_start_time (env book.file_name) = .ok ab) (hne : F ≠ [])
    (hch : Extract.collect_chapters env cp sp ab book.children = .error e) :
    Extract.collect_book env cp sp book = .error e := by
  unfold Extract.collect_book
  show (do
    let audio_files ← Extract.get_audio_files (env book.file_name) 0 []
    let book_start ← get_start_time (env book.file_name)
    let _ ← Extract.idx0 audio_files
    let rest ← Extract.collect_chapters env cp sp book_start book.children
    Except.ok (audio_files ++ rest)) = Except.error e
  rw [hgaf]
  show (do
    let book_start ← get_start_time (env book.file_name)
    let _ ← Extract.idx0 F
    let rest ← Extract.collect_chapters env cp sp book_start book.children
    Except.ok (F ++ rest)) = Except.error e
  rw [hstart]
  cases F with
  | nil => exact absurd rfl hne
  | cons f fs =>
    show (do
      let rest ← Extract.collect_chapters env cp sp ab (book.children)
      Except.ok ((f :: fs) ++ rest)) = Except.error e
    rw [hch]
    rfl

/-- Claim C9 (confirmed).  Processing a section whose synchronization document
lacks the total-elapsed-time metadata fails with the error the spec calls
`MissingMetadataError` (the `RuntimeError` of `get_start_time`); a section
whose document yields zero audio segments also fails (the `IndexError` of the
first-segment lookup needed for renaming, `TypeError`/`IndexError` in
readaisy); and either failure propagates so that processing of the enclosing
book fails rather than silently continuing. -/
theorem claim9_missing_metadata :
    (∀ (env : List Char → SmilDoc) (cp : Smil → List Char) (sp : Smil → Nat → List Char)
        (bs : Rat) (c : Smil) (rest : List Smil),
        (env c.file_name).totalElapsedTime = none →
        Extract.collect_chapters env cp sp bs (c :: rest) = .error .noMetaTag) ∧
      (∀ (env : List Char → SmilDoc) (cp : Smil → List Char) (sp : Smil → Nat → List Char)
        (bs : Rat) (c : Smil) (rest : List Smil) (a : Rat),
        get_start_time (env c.file_name) = .ok a →
        (env c.file_name).audioTags = [] →
        Extract.collect_chapters env cp sp bs (c :: rest) = .error .indexError) ∧
      (∀ (env : List Char → SmilDoc) (cp : Smil → List Char) (sp : Smil → Nat → List Char)
        (book : Smil) (F : List Extract.Audio),
        Extract.get_audio_files (env book.file_name) 0 [] = .ok F →
        (env book.file_name).totalElapsedTime = none →
        Extract.collect_book env cp sp book = .error .noMetaTag) ∧
      (∀ (env : List Char → SmilDoc) (cp : Smil → List Char) (sp : Smil → Nat → List Char)
        (book : Smil) (F : List Extract.Audio) (ab : Rat) (c : Smil) (rest : List Smil),
        Extract.get_audio_files (env book.file_name) 0 [] = .ok F →
        get_start_time (env book.file_name) = .ok ab → F ≠ [] →
        book.children = c :: rest →
        (env c.file_name).totalElapsedTime = none →
        Extract.collect_book env cp sp book = .error .noMetaTag) ∧
      (∀ (env : List Char → SmilDoc) (cp : Smil → List Char) (sp : Smil → Nat → List Char)
        (book : Smil) (F : List Extract.Audio) (ab : Rat) (c : Smil) (rest : List Smil)
        (a : Rat),
        Extract.get_audio_files (env book.file_name) 0 [] = .ok F →
        get_start_time (env book.file_name) = .ok ab → F ≠ [] →
        book.children = c :: rest →
        get_start_time (env c.file_name) = .ok a →
        (env c.file_name).audioTags = [] →
        Extract.collect_book env cp sp book = .error .indexError) ∧
      ∀ (doc : SmilDoc) (st : Rat) (idp : List Char) (sq : SeqTag) (d : Rat),
        doc.seq = some sq → pyDecimal sq.dur.dropLast = some d → sq.audio = [] →
        Readaisy.get_audio doc st idp = .error .indexError := by
  refine ⟨?_, ?_, ?_, ?_, ?_, ?_⟩
  · intro env cp sp bs c rest h
    exact collect_chapters_noMeta env cp sp bs c rest h
  · intro env cp sp bs c rest a hstart hempty
    exact collect_chapters_empty env cp sp bs c rest a hstart hempty
  · intro env cp sp book F hgaf hmeta
    unfold Extract.collect_book
    show (do
      let audio_files ← Extract.get_audio_files (env book.file_name) 0 []
      let book_start ← get_start_time (env book.file_name)
      let _ ← Extract.idx0 audio_files
      let rest ← Extract.collect_chapters env cp sp book_start book.children
      Except.ok (audio_files ++ rest)) = Except.error Err.noMetaTag
    rw [hgaf, get_start_time_noMeta hmeta]
    rfl
  · intro env cp sp book F ab c rest hgaf hstart hne hch hmeta
    refine collect_book_child_fails env cp sp book F ab _ hgaf hstart hne ?_
    rw [hch]
    exact collect_chapters_noMeta env cp sp ab c rest hmeta
  · intro env cp sp book F ab c rest a hgaf hstart hne hch hcs hempty
    refine collect_book_child_fails env cp sp book F ab _ hgaf hstart hne ?_
    rw [hch]
    exact collect_chapters_empty env cp sp ab c rest a hcs hempty
  · intro doc st idp sq d hseq hdur haudio
    simp [Readaisy.get_audio, hseq, hdur, haudio]

/-- Claim C9, witness: concrete filesets exercising the missing-metadata and
empty-section failures at chapter level, book level and in readaisy. -/
theorem claim9_missing_metadata_witness :
    Extract.collect_chapters envNoMeta (fun _ => []) (fun _ _ => []) 0
        [Smil.mk 2 "C".data "c9.smil".data []] = .error .noMetaTag ∧
      Extract.collect_chapters envEmptyChap (fun _ => []) (fun _ _ => []) 0
        [Smil.mk 2 "C".data "c9.smil".data []] = .error .indexError ∧
      Extract.collect_book envNoMeta (fun _ => []) (fun _ _ => []) bookW =
        .error .noMetaTag ∧
      Extract.collect_book envEmptyChap (fun _ => []) (fun _ _ => []) bookW =
        .error .indexError ∧
      Readaisy.get_audio emptySeqDoc 0 [] = .error .indexError :=
  ⟨claim9_missing_metadata.1 envNoMeta (fun _ => []) (fun _ _ => []) 0
      (Smil.mk 2 "C".data "c9.smil".data []) [] (by decide),
   claim9_missing_metadata.2.1 envEmptyChap (fun _ => []) (fun _ _ => []) 0
      (Smil.mk 2 "C".data "c9.smil".data []) [] 0 (by with_unfolding_all rfl) (by decide),
   claim9_missing_metadata.2.2.2.1 envNoMeta (fun _ => []) (fun _ _ => []) bookW
      [⟨"1".data, "w.mp3".data, 0, 2⟩, ⟨"2".data, "w.mp3".data, 5, 7⟩] 0
      (Smil.mk 2 "W1".data "cw.smil".data []) []
      (by with_unfolding_all rfl) (by with_unfolding_all rfl) (by decide) rfl (by decide),
   claim9_missing_metadata.2.2.2.2.1 envEmptyChap (fun _ => []) (fun _ _ => []) bookW
      [⟨"1".data, "w.mp3".data, 0, 2⟩, ⟨"2".data, "w.mp3".data, 5, 7⟩] 0
      (Smil.mk 2 "W1".data "cw.smil".data []) [] 0
      (by with_unfolding_all rfl) (by with_unfolding_all rfl) (by decide) rfl
      (by with_unfolding_all rfl) (by decide),
   claim9_missing_metadata.2.2.2.2.2 emptySeqDoc 0 [] ⟨"3s".data, []⟩ 3 rfl
      (by with_unfolding_all rfl) rfl⟩

/-! Helper lemmas relating the timeline assembly to its specification. -/

theorem mkAudio_start {t : AudioTag} {st : Rat} {idp : List Char} {a : Extract.Audio}
    (h : Extract.mkAudio t st idp = .ok a) :
    ∃ b, parseClipAttr t.clipBegin = .ok b ∧ a.start = b + st := by
  unfold Extract.mkAudio at h
  cases hb : parseClipAttr t.clipBegin with
  | error e => rw [hb] at h; exact Except.noConfusion h
  | ok b =>
    rw [hb] at h
    cases he : parseClipAttr t.clipEnd with
    | error e => rw [he] at h; exact Except.noConfusion h
    | ok e =>
      rw [he] at h
      cases hn : pyIntBase16 (idSuffix t.id) with
      | none => rw [hn] at h; exact Except.noConfusion h
      | some n =>
        rw [hn] at h
        have h2 := Except.ok.inj h
        exact ⟨b, rfl, by rw [← h2]⟩

theorem mapAudio_starts :
    ∀ {ts : List AudioTag} {st : Rat} {idp : List Char} {files : List Extract.Audio},
      Extract.mapAudio ts st idp = .ok files →
      ∃ bs, clipBegins ts = .ok bs ∧
        files.map Extract.Audio.start = bs.map (fun x => x + st) := by
  intro ts
  induction ts with
  | nil =>
    intro st idp files h
    have h2 := Except.ok.inj h
    exact ⟨[], rfl, by rw [← h2]; rfl⟩
  | cons t rest ih =>
    intro st idp files h
    unfold Extract.mapAudio at h
    cases ha : Extract.mkAudio t st idp with
    | error e => rw [ha] at h; exact Except.noConfusion h
    | ok a =>
      rw [ha] at h
      cases hr : Extract.mapAudio rest st idp with
      | error e => rw [hr] at h; exact Except.noConfusion h
      | ok as =>
        rw [hr] at h
        have h2 := Except.ok.inj h
        rcases mkAudio_start ha with ⟨b, hb, hab⟩
        rcases ih hr with ⟨bs, hbs, hmap⟩
        refine ⟨b :: bs, ?_, ?_⟩
        · unfold clipBegins
          rw [hb, hbs]
          rfl
        · rw [← h2, List.map_cons, List.map_cons, hab, hmap]

theorem mapAudio_length :
    ∀ {ts : List AudioTag} {st : Rat} {idp : List Char} {files : List Extract.Audio},
      Extract.mapAudio ts st idp = .ok files → files.length = ts.length := by
  intro ts st idp files h
  have := mapAudio_src h
  have h2 := congrArg List.length this
  simpa using h2

theorem clipBegins_length :
    ∀ {ts : List AudioTag} {bs : List Rat}, clipBegins ts = .ok bs →
      bs.length = ts.length := by
  intro ts
  induction ts with
  | nil =>
    intro bs h
    have h2 := Except.ok.inj h
    rw [← h2]
    rfl
  | cons t rest ih =>
    intro bs h
    unfold clipBegins at h
    cases hb : parseClipAttr t.clipBegin with
    | error e => rw [hb] at h; exact Except.noConfusion h
    | ok b =>
      rw [hb] at h
      cases hr : clipBegins rest with
      | error e => rw [hr] at h; exact Except.noConfusion h
      | ok bs2 =>
        rw [hr] at h
        have h2 := Except.ok.inj h
        rw [← h2]
        simp [ih hr]

theorem get_audio_files_ok {doc : SmilDoc} {st : Rat} {idp : List Char}
    {files : List Extract.Audio} (h : Extract.get_audio_files doc st idp = .ok files) :
    Extract.mapAudio doc.audioTags st idp = .ok files := by
  unfold Extract.get_audio_files at h
  cases hm : Extract.mapAudio doc.audioTags st idp with
  | error e => rw [hm] at h; exact Except.noConfusion h
  | ok fs =>
    rw [hm] at h
    have h3 : (match doc.audioTags.getLast? with
        | none => Except.ok fs
        | some lt =>
          if fs.all fun a => a.file_name == lt.src then Except.ok fs
          else Except.error (Err.inconsistentSource lt.src)) = Except.ok files := h
    cases hlast : doc.audioTags.getLast? with
    | none =>
      rw [hlast] at h3
      rw [Except.ok.inj h3]
    | some lt =>
      rw [hlast] at h3
      have h4 : (if (fs.all fun a => a.file_name == lt.src) = true then
          (Except.ok fs : Except Err (List Extract.Audio))
        else Except.error (Err.inconsistentSource lt.src)) = Except.ok files := h3
      by_cases hall : (fs.all fun a => a.file_name == lt.src) = true
      · rw [if_pos hall] at h4
        rw [Except.ok.inj h4]
      · rw [if_neg hall] at h4
        exact Except.noConfusion h4

theorem idx0_ne_nil {α : Type} {l : List α} {x : α} (h : Extract.idx0 l = .ok x) :
    l ≠ [] := by
  cases l with
  | nil => exact Except.noConfusion h
  | cons a t => exact List.cons_ne_nil a t

theorem collect_subs_cons (env : List Char → SmilDoc) (sp : Nat → List Char) (bs : Rat)
    (i : Nat) (sub : Smil) (rest : List Smil) :
    Extract.collect_subs env sp bs i (sub :: rest) = (do
      let sstart ← get_start_time (env sub.file_name)
      let sfiles ← Extract.get_audio_files (env sub.file_name) (sstart - bs) (sp i)
      let _ ← Extract.idx0 sfiles
      let more ← Extract.collect_subs env sp bs (i + 1) rest
      Except.ok (sfiles ++ more)) := rfl

theorem collect_chapters_cons (env : List Char → SmilDoc) (cp : Smil → List Char)
    (sp : Smil → Nat → List Char) (bs : Rat) (c : Smil) (rest : List Smil) :
    Extract.collect_chapters env cp sp bs (c :: rest) = (do
      let cstart ← get_start_time (env c.file_name)
      let cfiles ← Extract.get_audio_files (env c.file_name) (cstart - bs) (cp c)
      let _ ← Extract.idx0 cfiles
      let subs ← Extract.collect_subs env (sp c) bs 1 c.children
      let more ← Extract.collect_chapters env cp sp bs rest
      Except.ok (cfiles ++ subs ++ more)) := rfl

theorem collect_book_eq (env : List Char → SmilDoc) (cp : Smil → List Char)
    (sp : Smil → Nat → List Char) (book : Smil) :
    Extract.collect_book env cp sp book = (do
      let audio_files ← Extract.get_audio_files (env book.file_name) 0 []
      let book_start ← get_start_time (env book.file_name)
      let _ ← Extract.idx0 audio_files
      let rest ← Extract.collect_chapters env cp sp book_start book.children
      Except.ok (audio_files ++ rest)) := rfl

theorem specRest_cons (env : List Char → SmilDoc) (ab : Rat) (sec : Smil)
    (rest : List Smil) :
    specRest env ab (sec :: rest) = (do
      let a ← get_start_time (env sec.file_name)
      let ls ← clipBegins (env sec.file_name).audioTags
      let more ← specRest env ab rest
      Except.ok (ls.map (fun x => x + (a - ab)) ++ more)) := rfl

theorem specRest_append (env : List Char → SmilDoc) (ab : Rat) :
    ∀ l1 l2 : List Smil,
      specRest env ab (l1 ++ l2) = (do
        let a ← specRest env ab l1
        let b ← specRest env ab l2
        Except.ok (a ++ b)) := by
  intro l1
  induction l1 with
  | nil =>
    intro l2
    cases h : specRest env ab l2 with
    | error e => simp [specRest, h]; rfl
    | ok v => simp [specRest, h]; rfl
  | cons sec rest ih =>
    intro l2
    show specRest env ab (sec :: (rest ++ l2)) = _
    rw [specRest_cons, specRest_cons]
    cases ha : get_start_time (env sec.file_name) with
    | error e => rfl
    | ok a =>
      cases hls : clipBegins (env sec.file_name).audioTags with
      | error e => rfl
      | ok ls =>
        rw [ih l2]
        cases h1 : specRest env ab rest with
        | error e => rfl
        | ok v1 =>
          cases h2 : specRest env ab l2 with
          | error e => rfl
          | ok v2 =>
            show Except.ok (ls.map (fun x => x + (a - ab)) ++ (v1 ++ v2)) =
              Except.ok ((ls.map (fun x => x + (a - ab)) ++ v1) ++ v2)
            rw [List.append_assoc]

theorem ok_bind {E A B : Type} (x : A) (f : A → Except E B) :
    (Except.ok x : Except E A) >>= f = f x := rfl

theorem collect_subs_spec (env : List Char → SmilDoc) (sp : Nat → List Char) (bs : Rat) :
    ∀ (subs : List Smil) (i : Nat) (L : List Extract.Audio),
      Extract.collect_subs env sp bs i subs = .ok L →
      specRest env bs subs = .ok (L.map Extract.Audio.start) := by
  intro subs
  induction subs with
  | nil =>
    intro i L h
    rw [← Except.ok.inj h]
    rfl
  | cons sub rest ih =>
    intro i L h
    rw [collect_subs_cons] at h
    cases ha : get_start_time (env sub.file_name) with
    | error e => rw [ha] at h; exact Except.noConfusion h
    | ok a =>
      rw [ha] at h
      simp only [ok_bind] at h
      cases hf : Extract.get_audio_files (env sub.file_name) (a - bs) (sp i) with
      | error e => rw [hf] at h; exact Except.noConfusion h
      | ok sfiles =>
        rw [hf] at h
        simp only [ok_bind] at h
        cases hi : Extract.idx0 sfiles with
        | error e => rw [hi] at h; exact Except.noConfusion h
        | ok x =>
          rw [hi] at h
          simp only [ok_bind] at h
          cases hm : Extract.collect_subs env sp bs (i + 1) rest with
          | error e => rw [hm] at h; exact Except.noConfusion h
          | ok more =>
            rw [hm] at h
            simp only [ok_bind] at h
            have hL := Except.ok.inj h
            rcases mapAudio_starts (get_audio_files_ok hf) with ⟨ls, hls, hstarts⟩
            rw [specRest_cons, ha, hls, ih (i + 1) more hm]
            show Except.ok (ls.map (fun x => x + (a - bs)) ++ more.map Extract.Audio.start) =
              Except.ok (L.map Extract.Audio.start)
            rw [← hL, List.map_append, hstarts]

theorem collect_chapters_spec (env : List Char → SmilDoc) (cp : Smil → List Char)
    (sp : Smil → Nat → List Char) (bs : Rat) :
    ∀ (chs : List Smil) (L : List Extract.Audio),
      Extract.collect_chapters env cp sp bs chs = .ok L →
      specRest env bs (chs.flatMap fun c => c :: c.children) =
        .ok (L.map Extract.Audio.start) := by
  intro chs
  induction chs with
  | nil =>
    intro L h
    rw [← Except.ok.inj h]
    rfl
  | cons c rest ih =>
    intro L h
    rw [collect_chapters_cons] at h
    cases ha : get_start_time (env c.file_name) with
    | error e => rw [ha] at h; exact Except.noConfusion h
    | ok a =>
      rw [ha] at h
      simp only [ok_bind] at h
      cases hf : Extract.get_audio_files (env c.file_name) (a - bs) (cp c) with
      | error e => rw [hf] at h; exact Except.noConfusion h
      | ok cfiles =>
        rw [hf] at h
        simp only [ok_bind] at h
        cases hi : Extract.idx0 cfiles with
        | error e => rw [hi] at h; exact Except.noConfusion h
        | ok x =>
          rw [hi] at h
          simp only [ok_bind] at h
          cases hs : Extract.collect_subs env (sp c) bs 1 c.children with
          | error e => rw [hs] at h; exact Except.noConfusion h
          | ok subs =>
            rw [hs] at h
            simp only [ok_bind] at h
            cases hm : Extract.collect_chapters env cp sp bs rest with
            | error e => rw [hm] at h; exact Except.noConfusion h
            | ok more =>
              rw [hm] at h
              simp only [ok_bind] at h
              have hL := Except.ok.inj h
              rcases mapAudio_starts (get_audio_files_ok hf) with ⟨ls, hls, hstarts⟩
              have hsubs := collect_subs_spec env (sp c) bs c.children 1 subs hs
              have hrest := ih more hm
              show specRest env bs ((c :: c.children) ++ rest.flatMap fun x => x :: x.children) =
                Except.ok (L.map Extract.Audio.start)
              rw [specRest_append, specRest_cons, ha, hls, hsubs, hrest]
              show Except.ok ((ls.map (fun x => x + (a - bs)) ++ subs.map Extract.Audio.start) ++
                  more.map Extract.Audio.start) = Except.ok (L.map Extract.Audio.start)
              rw [← hL, List.map_append, List.map_append, hstarts, List.append_assoc]

theorem collect_book_spec (env : List Char → SmilDoc) (cp : Smil → List Char)
    (sp : Smil → Nat → List Char) (book : Smil) (L : List Extract.Audio)
    (h : Extract.collect_book env cp sp book = .ok L) :
    specStarts env book = .ok (L.map Extract.Audio.start) := by
  rw [collect_book_eq] at h
  cases hf : Extract.get_audio_files (env book.file_name) 0 [] with
  | error e => rw [hf] at h; exact Except.noConfusion h
  | ok audio_files =>
    rw [hf] at h
    simp only [ok_bind] at h
    cases ha : get_start_time (env book.file_name) with
    | error e => rw [ha] at h; exact Except.noConfusion h
    | ok ab =>
      rw [ha] at h
      simp only [ok_bind] at h
      cases hi : Extract.idx0 audio_files with
      | error e => rw [hi] at h; exact Except.noConfusion h
      | ok x =>
        rw [hi] at h
        simp only [ok_bind] at h
        cases hm : Extract.collect_chapters env cp sp ab book.children with
        | error e => rw [hm] at h; exact Except.noConfusion h
        | ok rest =>
          rw [hm] at h
          simp only [ok_bind] at h
          have hL := Except.ok.inj h
          rcases mapAudio_starts (get_audio_files_ok hf) with ⟨ls, hls, hstarts⟩
          have hrest := collect_chapters_spec env cp sp ab book.children rest hm
          unfold specStarts
          rw [ha]
          simp only [ok_bind]
          unfold allSections
          rw [specRest_cons, ha, hls, hrest]
          show Except.ok (ls.map (fun x => x + (ab - ab)) ++ rest.map Extract.Audio.start) =
            Except.ok (L.map Extract.Audio.start)
          rw [← hL, List.map_append, hstarts, sub_self]

theorem gaf_tags_ne_nil {doc : SmilDoc} {st : Rat} {idp : List Char}
    {files : List Extract.Audio} (h : Extract.get_audio_files doc st idp = .ok files)
    (hne : files ≠ []) : doc.audioTags ≠ [] := by
  intro hnil
  have hlen := mapAudio_length (get_audio_files_ok h)
  rw [hnil] at hlen
  simp at hlen
  exact hne hlen

theorem collect_subs_nonempty (env : List Char → SmilDoc) (sp : Nat → List Char) (bs : Rat) :
    ∀ (subs : List Smil) (i : Nat) (L : List Extract.Audio),
      Extract.collect_subs env sp bs i subs = .ok L →
      ∀ sec ∈ subs, (env sec.file_name).audioTags ≠ [] := by
  intro subs
  induction subs with
  | nil => intro i L _ sec hsec; simp at hsec
  | cons sub rest ih =>
    intro i L h sec hsec
    rw [collect_subs_cons] at h
    cases ha : get_start_time (env sub.file_name) with
    | error e => rw [ha] at h; exact Except.noConfusion h
    | ok a =>
      rw [ha] at h
      simp only [ok_bind] at h
      cases hf : Extract.get_audio_files (env sub.file_name) (a - bs) (sp i) with
      | error e => rw [hf] at h; exact Except.noConfusion h
      | ok sfiles =>
        rw [hf] at h
        simp only [ok_bind] at h
        cases hi : Extract.idx0 sfiles with
        | error e => rw [hi] at h; exact Except.noConfusion h
        | ok x =>
          rw [hi] at h
          simp only [ok_bind] at h
          cases hm : Extract.collect_subs env sp bs (i + 1) rest with
          | error e => rw [hm] at h; exact Except.noConfusion h
          | ok more =>
            rcases List.mem_cons.mp hsec with rfl | hmem
            · exact gaf_tags_ne_nil hf (idx0_ne_nil hi)
            · exact ih (i + 1) more hm sec hmem

theorem collect_chapters_nonempty (env : List Char → SmilDoc) (cp : Smil → List Char)
    (sp : Smil → Nat → List Char) (bs : Rat) :
    ∀ (chs : List Smil) (L : List Extract.Audio),
      Extract.collect_chapters env cp sp bs chs = .ok L →
      ∀ sec ∈ chs.flatMap (fun c => c :: c.children), (env sec.file_name).audioTags ≠ [] := by
  intro chs
  induction chs with
  | nil => intro L _ sec hsec; simp at hsec
  | cons c rest ih =>
    intro L h sec hsec
    rw [collect_chapters_cons] at h
    cases ha : get_start_time (env c.file_name) with
    | error e => rw [ha] at h; exact Except.noConfusion h
    | ok a =>
      rw [ha] at h
      simp only [ok_bind] at h
      cases hf : Extract.get_audio_files (env c.file_name) (a - bs) (cp c) with
      | error e => rw [hf] at h; exact Except.noConfusion h
      | ok cfiles =>
        rw [hf] at h
        simp only [ok_bind] at h
        cases hi : Extract.idx0 cfiles with
        | error e => rw [hi] at h; exact Except.noConfusion h
        | ok x =>
          rw [hi] at h
          simp only [ok_bind] at h
          cases hs : Extract.collect_subs env (sp c) bs 1 c.children with
          | error e => rw [hs] at h; exact Except.noConfusion h
          | ok subs =>
            rw [hs] at h
            simp only [ok_bind] at h
            cases hm : Extract.collect_chapters env cp sp bs rest with
            | error e => rw [hm] at h; exact Except.noConfusion h
            | ok more =>
              have hsec2 : sec ∈ (c :: c.children) ++
                  rest.flatMap (fun x => x :: x.children) := hsec
              rcases List.mem_append.mp hsec2 with hmem | hmem
              · rcases List.mem_cons.mp hmem with rfl | hmem2
                · exact gaf_tags_ne_nil hf (idx0_ne_nil hi)
                · exact collect_subs_nonempty env (sp c) bs c.children 1 subs hs sec hmem2
              · exact ih more hm sec hmem

theorem collect_book_nonempty (env : List Char → SmilDoc) (cp : Smil → List Char)
    (sp : Smil → Nat → List Char) (book : Smil) (L : List Extract.Audio)
    (h : Extract.collect_book env cp sp book = .ok L) :
    ∀ sec ∈ allSections book, (env sec.file_name).audioTags ≠ [] := by
  rw [collect_book_eq] at h
  cases hf : Extract.get_audio_files (env book.file_name) 0 [] with
  | error e => rw [hf] at h; exact Except.noConfusion h
  | ok audio_files =>
    rw [hf] at h
    simp only [ok_bind] at h
    cases ha : get_start_time (env book.file_name) with
    | error e => rw [ha] at h; exact Except.noConfusion h
    | ok ab =>
      rw [ha] at h
      simp only [ok_bind] at h
      cases hi : Extract.idx0 audio_files with
      | error e => rw [hi] at h; exact Except.noConfusion h
      | ok x =>
        rw [hi] at h
        simp only [ok_bind] at h
        cases hm : Extract.collect_chapters env cp sp ab book.children with
        | error e => rw [hm] at h; exact Except.noConfusion h
        | ok rest =>
          intro sec hsec
          rcases List.mem_cons.mp hsec with rfl | hmem
          · exact gaf_tags_ne_nil hf (idx0_ne_nil hi)
          · exact collect_chapters_nonempty env cp sp ab book.children rest hm sec hmem

theorem specRest_chain (env : List Char → SmilDoc) (ab : Rat) :
    ∀ (secs : List Smil) (S : List Rat),
      specRest env ab secs = .ok S →
      (∀ sec ∈ secs, ∀ ls, clipBegins (env sec.file_name).audioTags = .ok ls →
        ls.Chain' (· ≤ ·) ∧ ls ≠ []) →
      List.Chain' (secBoundary env) secs →
      S.Chain' (· ≤ ·) := by
  intro secs
  induction secs with
  | nil =>
    intro S h _ _
    rw [← Except.ok.inj h]
    exact List.chain'_nil
  | cons sec rest ih =>
    intro S h hloc hbnd
    rw [specRest_cons] at h
    cases ha : get_start_time (env sec.file_name) with
    | error e => rw [ha] at h; exact Except.noConfusion h
    | ok a =>
      rw [ha] at h
      simp only [ok_bind] at h
      cases hls : clipBegins (env sec.file_name).audioTags with
      | error e => rw [hls] at h; exact Except.noConfusion h
      | ok ls =>
        rw [hls] at h
        simp only [ok_bind] at h
        cases hm : specRest env ab rest with
        | error e => rw [hm] at h; exact Except.noConfusion h
        | ok S2 =>
          rw [hm] at h
          simp only [ok_bind] at h
          have hS := Except.ok.inj h
          obtain ⟨hchain_ls, hne_ls⟩ := hloc sec (List.mem_cons_self _ _) ls hls
          have hblock : (ls.map (fun x => x + (a - ab))).Chain' (· ≤ ·) := by
            rw [List.chain'_map]
            exact hchain_ls.imp fun x y hxy => add_le_add_right hxy _
          have hS2chain : S2.Chain' (· ≤ ·) :=
            ih S2 hm (fun s hs ls2 hls2 => hloc s (List.mem_cons_of_mem _ hs) ls2 hls2)
              (List.chain'_cons'.mp hbnd).2
          rw [← hS, List.chain'_append]
          refine ⟨hblock, hS2chain, ?_⟩
          intro x hx y hy
          cases rest with
          | nil =>
            have hS2nil : ([] : List Rat) = S2 := Except.ok.inj hm
            rw [← hS2nil] at hy
            simp at hy
          | cons sec2 rest2 =>
            rw [specRest_cons] at hm
            cases ha2 : get_start_time (env sec2.file_name) with
            | error e => rw [ha2] at hm; exact Except.noConfusion hm
            | ok a2 =>
              rw [ha2] at hm
              simp only [ok_bind] at hm
              cases hls2 : clipBegins (env sec2.file_name).audioTags with
              | error e => rw [hls2] at hm; exact Except.noConfusion hm
              | ok ls2 =>
                rw [hls2] at hm
                simp only [ok_bind] at hm
                cases hm2 : specRest env ab rest2 with
                | error e => rw [hm2] at hm; exact Except.noConfusion hm
                | ok S3 =>
                  rw [hm2] at hm
                  simp only [ok_bind] at hm
                  have hS2 := Except.ok.inj hm
                  obtain ⟨_, hne2⟩ :=
                    hloc sec2 (List.mem_cons_of_mem _ (List.mem_cons_self _ _)) ls2 hls2
                  have hbcb : secBoundary env sec sec2 :=
                    (List.chain'_cons'.mp hbnd).1 sec2 rfl
                  have hlsg := List.getLast?_map (fun x => x + (a - ab)) ls
                  rw [hlsg] at hx
                  cases hlast : ls.getLast? with
                  | none =>
                    rw [hlast] at hx
                    simp at hx
                  | some lv =>
                    rw [hlast] at hx
                    simp at hx
                    cases ls2 with
                    | nil => exact absurd rfl hne2
                    | cons b bs2 =>
                      have hyhead : y = b + (a2 - ab) := by
                        rw [← hS2] at hy
                        simp at hy
                        exact hy.symm
                      have hmain := hbcb a a2 ls (b :: bs2) ha ha2 hls hls2 lv
                        (by rw [hlast]; rfl) b (by rfl)
                      rw [← hx, hyhead]
                      have : lv + a ≤ b + a2 := hmain
                      linarith

/-- Claim C1 (corrected).  For every book whose processing succeeds, each
section's segments are extracted at offset `(section anchor − book anchor)`
(the book's own at offset 0), so the sequence of book-global start values
equals, section by section in traversal order, the local clip-begin values
shifted by that anchor difference (`specStarts`); the concatenation is
non-decreasing provided the input is time-coherent — each document's
clip-begin list is non-decreasing and consecutive sections satisfy
`lastClip + anchor ≤ nextFirstClip + nextAnchor` — but not unconditionally
(see the counterexample). -/
theorem claim1_timeline :
    (∀ (env : List Char → SmilDoc) (cp : Smil → List Char) (sp : Smil → Nat → List Char)
        (book : Smil) (L : List Extract.Audio),
        Extract.collect_book env cp sp book = .ok L →
        specStarts env book = .ok (L.map Extract.Audio.start)) ∧
      ∀ (env : List Char → SmilDoc) (cp : Smil → List Char) (sp : Smil → Nat → List Char)
        (book : Smil) (L : List Extract.Audio),
        Extract.collect_book env cp sp book = .ok L →
        (∀ sec ∈ allSections book, ∀ ls,
          clipBegins (env sec.file_name).audioTags = .ok ls → ls.Chain' (· ≤ ·)) →
        List.Chain' (secBoundary env) (allSections book) →
        (L.map Extract.Audio.start).Chain' (· ≤ ·) := by
  refine ⟨fun env cp sp book L h => collect_book_spec env cp sp book L h, ?_⟩
  intro env cp sp book L h hloc hbnd
  have hspec := collect_book_spec env cp sp book L h
  have hne := collect_book_nonempty env cp sp book L h
  unfold specStarts at hspec
  cases ha : get_start_time (env book.file_name) with
  | error e => rw [ha] at hspec; exact Except.noConfusion hspec
  | ok ab =>
    rw [ha] at hspec
    simp only [ok_bind] at hspec
    refine specRest_chain env ab (allSections book) _ hspec ?_ hbnd
    intro sec hsec ls hls
    refine ⟨hloc sec hsec ls hls, ?_⟩
    intro hnil
    have hlen := clipBegins_length hls
    rw [hnil] at hlen
    exact hne sec hsec (List.eq_nil_of_length_eq_zero hlen.symm)

/-- Claim C1, witness: on the coherent fileset `envW` the assembled starts
are `[0, 5, 10]`, matching the spec assembly, and non-decreasing. -/
theorem claim1_timeline_witness :
    specStarts envW bookW =
        .ok (([⟨"1".data, "w.mp3".data, 0, 2⟩, ⟨"2".data, "w.mp3".data, 5, 7⟩,
            ⟨"3".data, "w2.mp3".data, 10, 13⟩] : List Extract.Audio).map
          Extract.Audio.start) ∧
      (([⟨"1".data, "w.mp3".data, 0, 2⟩, ⟨"2".data, "w.mp3".data, 5, 7⟩,
          ⟨"3".data, "w2.mp3".data, 10, 13⟩] : List Extract.Audio).map
        Extract.Audio.start).Chain' (· ≤ ·) := by
  have hrun : Extract.collect_book envW (fun _ => []) (fun _ _ => []) bookW =
      .ok [⟨"1".data, "w.mp3".data, 0, 2⟩, ⟨"2".data, "w.mp3".data, 5, 7⟩,
        ⟨"3".data, "w2.mp3".data, 10, 13⟩] := by
    with_unfolding_all rfl
  have hloc : ∀ sec ∈ allSections bookW, ∀ ls,
      clipBegins (envW sec.file_name).audioTags = .ok ls → ls.Chain' (· ≤ ·) := by
    intro sec hsec ls hls
    have hsecs : allSections bookW = [bookW, Smil.mk 2 "W1".data "cw.smil".data []] := rfl
    rw [hsecs] at hsec
    rcases List.mem_cons.mp hsec with rfl | hsec2
    · have hv : clipBegins (envW (Smil.file_name bookW)).audioTags =
          Except.ok [(0 : Rat), 5] := by with_unfolding_all rfl
      rw [hv] at hls
      rw [← Except.ok.inj hls]
      rw [List.chain'_cons]
      refine ⟨by norm_num, List.chain'_singleton _⟩
    · rcases List.mem_cons.mp hsec2 with rfl | h0
      · have hv : clipBegins
            (envW (Smil.file_name (Smil.mk 2 "W1".data "cw.smil".data []))).audioTags =
            Except.ok [(0 : Rat)] := by with_unfolding_all rfl
        rw [hv] at hls
        rw [← Except.ok.inj hls]
        exact List.chain'_singleton _
      · simp at h0
  have hbnd : List.Chain' (secBoundary envW) (allSections bookW) := by
    have hsecs : allSections bookW = [bookW, Smil.mk 2 "W1".data "cw.smil".data []] := rfl
    rw [hsecs]
    rw [List.chain'_cons]
    refine ⟨?_, List.chain'_singleton _⟩
    intro a1 a2 l1 l2 h1 h2 h3 h4
    rw [show get_start_time (envW (Smil.file_name bookW)) = Except.ok (0 : Rat) from by
      with_unfolding_all rfl] at h1
    rw [show get_start_time
        (envW (Smil.file_name (Smil.mk 2 "W1".data "cw.smil".data []))) =
        Except.ok (10 : Rat) from by with_unfolding_all rfl] at h2
    rw [show clipBegins (envW (Smil.file_name bookW)).audioTags =
        Except.ok [(0 : Rat), 5] from by with_unfolding_all rfl] at h3
    rw [show clipBegins
        (envW (Smil.file_name (Smil.mk 2 "W1".data "cw.smil".data []))).audioTags =
        Except.ok [(0 : Rat)] from by with_unfolding_all rfl] at h4
    cases Except.ok.inj h1
    cases Except.ok.inj h2
    cases Except.ok.inj h3
    cases Except.ok.inj h4
    intro x hx y hy
    simp at hx hy
    rw [← hx, ← hy]
    norm_num
  exact ⟨claim1_timeline.1 envW (fun _ => []) (fun _ _ => []) bookW _ hrun,
    claim1_timeline.2 envW (fun _ => []) (fun _ _ => []) bookW _ hrun hloc hbnd⟩

/-- Claim C1, counterexample to the unconditional monotonicity: on `envN` the
book's only segment starts at 10 s while the chapter's anchor-shifted segment
starts at 0 s, so processing succeeds but the concatenated start sequence
`[10, 0]` decreases. -/
theorem claim1_timeline_counterexample :
    Extract.collect_book envN (fun _ => []) (fun _ _ => []) bookN =
        .ok [⟨"1".data, "a.mp3".data, 10, 11⟩, ⟨"2".data, "c.mp3".data, 0, 1⟩] ∧
      ¬ (([⟨"1".data, "a.mp3".data, 10, 11⟩,
          ⟨"2".data, "c.mp3".data, 0, 1⟩] : List Extract.Audio).map
            Extract.Audio.start).Chain' (· ≤ ·) := by
  refine ⟨by with_unfolding_all rfl, ?_⟩
  intro hch
  have h2 : (([10, 0] : List Rat)).Chain' (· ≤ ·) := hch
  have h3 : ((10 : Rat)) ≤ 0 := (List.chain'_cons.mp h2).1
  norm_num at h3
